import Mathlib

/-!
Verification of the pairwise-dataset generator (`pair_data.py`).

This file gives a shallow embedding of the pairwise-dataset generator of the
keystroke-dynamics repository and proves/refutes the frozen claims about it.

Modelling conventions:
* A pandas `DataFrame` of numeric feature columns is a `DFrame`: an ordered
  list of column names together with rows of integer-valued cells (floats are
  modelled by `Int`; every claim is about structure, counts and exact
  elementwise `|a - b|`, which the integers represent faithfully).
* The registration frame handed to `extract_pairs` is a `RegTable`: each row
  carries the value of its `user_name` column plus the cells of the feature
  columns, aligned with `RegTable.cols`.
* A raised Python exception is an `Except.error`: `PairError.config` is the
  explicit `ValueError` raised by the flag/feature check, the other two
  constructors model the `ValueError`s that `np.concatenate` and `pd.concat`
  raise when handed an empty list of arrays/frames.
* `cartesian_product` mutates its argument frames in place (it assigns the
  temporary join/index columns into them and never removes them); the
  embedding returns those post-states alongside the output:
  `(post state of DF_data_A, post state of DF_data_B, returned frame)`.
-/

namespace PairData

/-- A dataframe: ordered column names plus rows of integer-valued cells.
Each row is meant to be aligned with `cols` (one cell per column). -/
structure DFrame where
  cols : List String
  rows : List (List Int)
deriving DecidableEq

/-- The registration table consumed by `extract_pairs`: `cols` are the names
of the feature columns, and each row is the value of its `user_name` column
together with its feature cells (aligned with `cols`). -/
structure RegTable where
  cols : List String
  rows : List (String × List Int)
deriving DecidableEq

/-- The exceptions the generator can raise.  `config` is the explicit
`ValueError` of the flag/feature check; `emptyNumpyConcat` is the
`ValueError` raised by `np.concatenate([])`; `emptyPandasConcat` is the
`ValueError` raised by `pd.concat([])`. -/
inductive PairError where
  | config
  | emptyNumpyConcat
  | emptyPandasConcat
deriving DecidableEq

instance {ε α : Type} [DecidableEq ε] [DecidableEq α] : DecidableEq (Except ε α) :=
  fun a b =>
    match a, b with
    | .error e, .error f => decidable_of_iff (e = f) (by simp)
    | .ok x, .ok y => decidable_of_iff (x = y) (by simp)
    | .error _, .ok _ => isFalse (by simp)
    | .ok _, .error _ => isFalse (by simp)

/-- Position of the first column named `c` (pandas label lookup). -/
def colIdx (cols : List String) (c : String) : Nat :=
  List.findIdx (fun x => x == c) cols

/-- Elementwise absolute difference of two feature vectors: the broadcasted
`np.abs(a - b)` on one row pair. -/
def absDiffVec (a b : List Int) : List Int :=
  List.zipWith (fun x y => |x - y|) a b

/-- Translation of `abs_diff_between_all_row_pairs` (pair_data.py:124-152).

The broadcast `np.abs(np.expand_dims(A, 0) - np.expand_dims(B, 1))` has shape
`(|B|, |A|, F)` with entry `[i, j] = |A[j] - B[i]|`.

* `within_A = False`: `np.reshape(pairs_diffs, [-1, F])` flattens it in
  row-major order: `i` over `B`'s rows outermost, `j` over `A`'s rows.
* `within_A = True`: `[pairs_diffs[i, i+1:] for i in range(num_examples-1)]`
  keeps, for each `i`, the slices with `j > i`, and `np.concatenate` joins
  them.  When `num_examples <= 1` that list comprehension is empty and
  `np.concatenate([])` raises `ValueError` — modelled by `none`. -/
def abs_diff_between_all_row_pairs (DF_data_A DF_data_B : DFrame)
    (within_A : Bool) : Option DFrame :=
  if within_A then
    if DF_data_A.rows.length ≤ 1 then none
    else some ⟨DF_data_A.cols,
      (List.range (DF_data_A.rows.length - 1)).flatMap (fun i =>
        ((List.range DF_data_A.rows.length).filter (fun j => decide (i < j))).map
          (fun j => absDiffVec (DF_data_A.rows.getD j []) (DF_data_B.rows.getD i [])))⟩
  else
    some ⟨DF_data_A.cols,
      (List.range DF_data_B.rows.length).flatMap (fun i =>
        (List.range DF_data_A.rows.length).map
          (fun j => absDiffVec (DF_data_A.rows.getD j []) (DF_data_B.rows.getD i [])))⟩

/-- Assignment `df[c] = v`: append a constant-valued column (new label goes last). -/
def addConstCol (df : DFrame) (c : String) (v : Int) : DFrame :=
  ⟨df.cols ++ [c], df.rows.map (fun r => r ++ [v])⟩

/-- Assignment `df[c] = range(df.shape[0])`: append a synthetic row-number column. -/
def addIndexCol (df : DFrame) (c : String) : DFrame :=
  ⟨df.cols ++ [c],
   (df.rows.zip (List.range df.rows.length)).map (fun ri => ri.1 ++ [(ri.2 : Int)])⟩

/-- Column labels of `pd.merge(A, B, on := on, suffixes := (sA, sB))`:
the left frame's columns (the join key unsuffixed, other labels suffixed when
they also occur on the right), then the right frame's columns without the
join key (suffixed when they also occur on the left). -/
def mergeCols (acols bcols : List String) (onc sA sB : String) : List String :=
  acols.map (fun c => if c = onc then c else if c ∈ bcols then c ++ sA else c) ++
  (bcols.filter (fun c => !(c == onc))).map
    (fun c => if c ∈ acols then c ++ sB else c)

/-- Merge `pd.merge(A, B, on := on, suffixes := (sA, sB))` (inner join): for each
left row in order, every right row with an equal key in order; the joined row
is the left row followed by the right row without its key cell. -/
def merge (A B : DFrame) (onc sA sB : String) : DFrame :=
  let kA := colIdx A.cols onc
  let kB := colIdx B.cols onc
  ⟨mergeCols A.cols B.cols onc sA sB,
   A.rows.flatMap (fun ra =>
     (B.rows.filter (fun rb => rb.getD kB 0 == ra.getD kA 0)).map
       (fun rb => ra ++ rb.eraseIdx kB))⟩

/-- Drop `df.drop(c, axis=1)`: remove the column labelled `c` and its cells. -/
def DFrame.dropCol (df : DFrame) (c : String) : DFrame :=
  ⟨df.cols.eraseIdx (colIdx df.cols c),
   df.rows.map (fun r => r.eraseIdx (colIdx df.cols c))⟩

/-- Selection `df[df[cA] > df[cB]]`: keep the rows whose `cA` cell exceeds their `cB`
cell. -/
def DFrame.filterGtCols (df : DFrame) (cA cB : String) : DFrame :=
  ⟨df.cols,
   df.rows.filter (fun r =>
     decide (r.getD (colIdx df.cols cB) 0 < r.getD (colIdx df.cols cA) 0))⟩

/-- Translation of `cartesian_product` (pair_data.py:155-196) at its call
sites (`suffixes = ('_A', '_B')`).

The Python function assigns `_tmp_cart_prod = 0` into both input frames (and,
when `within_A`, also `_tmp_row_number = range(n)`), merges the two frames on
the constant key, drops the key, and when `within_A` keeps only the rows with
`_tmp_row_number_A > _tmp_row_number_B` before dropping the two row-number
columns.  The assignments mutate the caller's frames and are never undone
there, so the embedding returns `(post_A, post_B, result)`. -/
def cartesian_product (DF_data_A DF_data_B : DFrame) (within_A : Bool) :
    DFrame × DFrame × DFrame :=
  let A1 := addConstCol DF_data_A "_tmp_cart_prod" 0
  let B1 := addConstCol DF_data_B "_tmp_cart_prod" 0
  let A2 := if within_A then addIndexCol A1 "_tmp_row_number" else A1
  let B2 := if within_A then addIndexCol B1 "_tmp_row_number" else B1
  let allPairs := (merge A2 B2 "_tmp_cart_prod" "_A" "_B").dropCol "_tmp_cart_prod"
  let result :=
    if within_A then
      ((allPairs.filterGtCols "_tmp_row_number_A" "_tmp_row_number_B").dropCol
          "_tmp_row_number_A").dropCol "_tmp_row_number_B"
    else allPairs
  (A2, B2, result)

/-- Translation of `get_pair_data` (pair_data.py:80-121).  `DF_data_B = none`
models the defaulted argument: the computation then runs within `DF_data_A`.
`none` as a result models a raised exception; the `some` value carries the
post-states of the two argument frames and the returned frame. -/
def get_pair_data (only_feature_diffs : Bool) (DF_data_A : DFrame)
    (DF_data_B : Option DFrame) : Option (DFrame × DFrame × DFrame) :=
  let within_A := DF_data_B.isNone
  let B := DF_data_B.getD DF_data_A
  if only_feature_diffs then
    (abs_diff_between_all_row_pairs DF_data_A B within_A).map
      (fun out => (DF_data_A, B, out))
  else
    some (cartesian_product DF_data_A B within_A)

/-- Model of `pd.unique`: the distinct values of a column in order of first
occurrence, written with an accumulator of already-seen values. -/
def uniqueFirstSeen (seen : List String) : List String → List String
  | [] => []
  | u :: rest =>
      if u ∈ seen then uniqueFirstSeen seen rest
      else u :: uniqueFirstSeen (u :: seen) rest

/-- Selection `DF_registration.loc[DF_registration['user_name'] == u, feature_names]`:
the rows of user `u`, restricted to the requested feature columns in the
requested order (a fresh copy, as `.loc` column selection copies). -/
def selectUserFeatures (reg : RegTable) (u : String) (fns : List String) : DFrame :=
  ⟨fns,
   (reg.rows.filter (fun r => r.1 == u)).map
     (fun r => fns.map (fun c => r.2.getD (colIdx reg.cols c) 0))⟩

/-- The double loop `for i in range(U-1): for j in range(i+1, U)`: every
strictly increasing index pair below `n`, in lexicographic order. -/
def upperTriPairs (n : Nat) : List (Nat × Nat) :=
  (List.range (n - 1)).flatMap (fun i =>
    ((List.range n).filter (fun j => decide (i < j))).map (fun j => (i, j)))

/-- Run the loop body over a list of prepared results, stopping at the first
raised exception (Python `for` with exception propagation). -/
def tryCollect : List (Except PairError DFrame) → Except PairError (List DFrame)
  | [] => .ok []
  | (Except.error e) :: _ => .error e
  | (Except.ok t) :: rest => (tryCollect rest).map (fun ts => t :: ts)

/-- Concatenation `pd.concat(frames)`: raises on an empty list, otherwise stacks the rows
(all frames passed to it share one schema, see the schema lemmas below). -/
def concatTables : List DFrame → Except PairError DFrame
  | [] => .error .emptyPandasConcat
  | t :: ts => .ok ⟨t.cols, (t :: ts).flatMap DFrame.rows⟩

/-- One negative-loop iteration of `extract_pairs`: the pair frame of users
`users[p.1]` and `users[p.2]`. -/
def pairItemTable (reg : RegTable) (fns : List String) (onlyDiffs : Bool)
    (users : List String) (p : Nat × Nat) : Except PairError DFrame :=
  match get_pair_data onlyDiffs
      (selectUserFeatures reg (users.getD p.1 "") fns)
      (some (selectUserFeatures reg (users.getD p.2 "") fns)) with
  | some t => .ok t.2.2
  | none => .error .emptyNumpyConcat

/-- One positive-loop iteration of `extract_pairs`: the within-user pair
frame of user `u` (second argument of `get_pair_data` defaulted). -/
def withinItemTable (reg : RegTable) (fns : List String) (onlyDiffs : Bool)
    (u : String) : Except PairError DFrame :=
  match get_pair_data onlyDiffs (selectUserFeatures reg u fns) none with
  | some t => .ok t.2.2
  | none => .error .emptyNumpyConcat

/-- Translation of `extract_pairs` (pair_data.py:5-77): the flag/feature
check, then all negative (cross-user) pair frames concatenated and labelled
`0`, then all positive (within-user) pair frames concatenated and labelled
`1`, then the two stacked. -/
def extract_pairs (reg : RegTable) (feature_names : List String)
    (only_feature_diffs : Bool) : Except PairError DFrame :=
  if only_feature_diffs ∧ "sequence" ∈ feature_names then .error .config
  else
    let users := uniqueFirstSeen [] (reg.rows.map Prod.fst)
    match tryCollect ((upperTriPairs users.length).map
        (pairItemTable reg feature_names only_feature_diffs users)) with
    | .error e => .error e
    | .ok negTables =>
      match concatTables negTables with
      | .error e => .error e
      | .ok negDF =>
        let DF_negative := addConstCol negDF "label" 0
        match tryCollect (users.map
            (withinItemTable reg feature_names only_feature_diffs)) with
        | .error e => .error e
        | .ok posTables =>
          match concatTables posTables with
          | .error e => .error e
          | .ok posDF =>
            let DF_positive := addConstCol posDF "label" 1
            concatTables [DF_negative, DF_positive]

/-! ## Specification-side vocabulary -/

/-- All index pairs of an `m × k` cross join in left-major order. -/
def crossPairs (m k : Nat) : List (Nat × Nat) :=
  (List.range m).flatMap (fun i => (List.range k).map (fun j => (i, j)))

/-- The index pairs a within-group cross join keeps after the
`index_A > index_B` filter, in the join's row order. -/
def lowerTriPairs (n : Nat) : List (Nat × Nat) :=
  (crossPairs n n).filter (fun p => decide (p.2 < p.1))

/-- The deduplication contract for a within-group pair list over `n` rows:
no self-pair, each unordered pair of distinct indices below `n` contributes
exactly one entry, and there are `n*(n-1)/2` entries. -/
def pairProps (P : List (Nat × Nat)) (n : Nat) : Prop :=
  (∀ p ∈ P, p.1 ≠ p.2) ∧
  (∀ j, j < n → ∀ i, i < j → P.count (i, j) + P.count (j, i) = 1) ∧
  P.length = n * (n - 1) / 2

/-- The caller's feature names do not collide with the engine's synthetic
column names (true of any real feature set). -/
def goodCols (fns : List String) : Prop :=
  "_tmp_cart_prod" ∉ fns ∧ "_tmp_row_number" ∉ fns

instance (fns : List String) : Decidable (goodCols fns) := by
  unfold goodCols; infer_instance

/-- No synthetic engine column among these labels. -/
def tmpFree (cols : List String) : Prop :=
  "_tmp_cart_prod" ∉ cols ∧ "_tmp_row_number" ∉ cols ∧
  "_tmp_row_number_A" ∉ cols ∧ "_tmp_row_number_B" ∉ cols

/-- Every row of `df` has exactly `F` cells. -/
def wfRows (df : DFrame) (F : Nat) : Prop :=
  ∀ r ∈ df.rows, r.length = F

instance (df : DFrame) (F : Nat) : Decidable (wfRows df F) := by
  unfold wfRows; infer_instance

/-- Number of registration rows of user `u`. -/
def userGroupSize (reg : RegTable) (u : String) : Nat :=
  (reg.rows.filter (fun r => r.1 == u)).length

/-- The sum `Σ_{i<j} n_i * n_j` over the listed users' group sizes. -/
def negPairCount (reg : RegTable) (users : List String) : Nat :=
  ((upperTriPairs users.length).map (fun p =>
    userGroupSize reg (users.getD p.1 "") *
      userGroupSize reg (users.getD p.2 ""))).sum

/-- The sum `Σ_i n_i * (n_i - 1) / 2` over the listed users' group sizes. -/
def posPairCount (reg : RegTable) (users : List String) : Nat :=
  (users.map (fun u =>
    userGroupSize reg u * (userGroupSize reg u - 1) / 2)).sum

/-- Elementwise absolute difference of the `_A` column block and the `_B`
column block of a concat-mode row (`F` feature columns per block). -/
def blockAbsDiff (F : Nat) (r : List Int) : List Int :=
  absDiffVec (r.take F) (r.drop F)

/-- The feature-column schema of a Pair Representation Table: the original
feature columns in diff mode, the suffix-duplicated columns in concat mode. -/
def schemaCols (fns : List String) (onlyDiffs : Bool) : List String :=
  if onlyDiffs then fns else fns.map (· ++ "_A") ++ fns.map (· ++ "_B")

/-- The payload of a successful loop iteration (used to name the tables a
successful pass produces; every iteration below is proved to succeed). -/
def okTable (x : Except PairError DFrame) : DFrame :=
  match x with
  | .ok t => t
  | .error _ => ⟨[], []⟩

/-! ## String bookkeeping: the synthetic labels never collide with suffixed
feature labels -/

theorem append_ne_of_suffix_ne (a b s t : String)
    (hlen : s.data.length = t.data.length) (hst : s ≠ t) : a ++ s ≠ b ++ t := by
  intro h
  have hd := congrArg String.data h
  rw [String.data_append, String.data_append] at hd
  exact hst (String.ext (List.append_inj' hd hlen).2)

theorem append_right_cancel_str {a b s : String} (h : a ++ s = b ++ s) : a = b := by
  have hd := congrArg String.data h
  rw [String.data_append, String.data_append] at hd
  exact String.ext (List.append_inj' hd rfl).1

theorem suffA_ne_tmpcart (f : String) : f ++ "_A" ≠ "_tmp_cart_prod" := by
  have h : "_tmp_cart_prod" = "_tmp_cart_pr" ++ "od" := by decide
  rw [h]
  exact append_ne_of_suffix_ne _ _ _ _ (by decide) (by decide)

theorem suffB_ne_tmpcart (f : String) : f ++ "_B" ≠ "_tmp_cart_prod" := by
  have h : "_tmp_cart_prod" = "_tmp_cart_pr" ++ "od" := by decide
  rw [h]
  exact append_ne_of_suffix_ne _ _ _ _ (by decide) (by decide)

theorem suffA_ne_suffB (f g : String) : f ++ "_A" ≠ g ++ "_B" :=
  append_ne_of_suffix_ne _ _ _ _ (by decide) (by decide)

theorem tmpcart_not_mem_suffA (fns : List String) :
    "_tmp_cart_prod" ∉ fns.map (· ++ "_A") := by
  intro h
  rcases List.mem_map.mp h with ⟨f, _, hf⟩
  exact suffA_ne_tmpcart f hf

theorem tmpcart_not_mem_suffB (fns : List String) :
    "_tmp_cart_prod" ∉ fns.map (· ++ "_B") := by
  intro h
  rcases List.mem_map.mp h with ⟨f, _, hf⟩
  exact suffB_ne_tmpcart f hf

theorem trA_eq_append : "_tmp_row_number_A" = "_tmp_row_number" ++ "_A" := by decide

theorem trB_eq_append : "_tmp_row_number_B" = "_tmp_row_number" ++ "_B" := by decide

theorem trA_not_mem_suffA {fns : List String} (h : "_tmp_row_number" ∉ fns) :
    "_tmp_row_number_A" ∉ fns.map (· ++ "_A") := by
  intro hm
  rcases List.mem_map.mp hm with ⟨f, hf, hfe⟩
  rw [trA_eq_append] at hfe
  exact h (append_right_cancel_str hfe ▸ hf)

theorem trB_not_mem_suffB {fns : List String} (h : "_tmp_row_number" ∉ fns) :
    "_tmp_row_number_B" ∉ fns.map (· ++ "_B") := by
  intro hm
  rcases List.mem_map.mp hm with ⟨f, hf, hfe⟩
  rw [trB_eq_append] at hfe
  exact h (append_right_cancel_str hfe ▸ hf)

theorem trA_not_mem_suffB (fns : List String) :
    "_tmp_row_number_A" ∉ fns.map (· ++ "_B") := by
  intro hm
  rcases List.mem_map.mp hm with ⟨f, _, hfe⟩
  rw [trA_eq_append] at hfe
  exact suffA_ne_suffB _ _ hfe.symm

theorem trB_not_mem_suffA (fns : List String) :
    "_tmp_row_number_B" ∉ fns.map (· ++ "_A") := by
  intro hm
  rcases List.mem_map.mp hm with ⟨f, _, hfe⟩
  rw [trB_eq_append] at hfe
  exact suffA_ne_suffB _ _ hfe

/-! ## List index bookkeeping -/

theorem findIdx_all_false {α : Type} {p : α → Bool} :
    ∀ l : List α, (∀ x ∈ l, p x = false) → List.findIdx p l = l.length := by
  intro l
  induction l with
  | nil => intro _; rfl
  | cons a l ih =>
      intro h
      rw [List.findIdx_cons, h a (by simp)]
      simp [ih (fun x hx => h x (by simp [hx]))]

theorem colIdx_cons_self (c : String) (l : List String) : colIdx (c :: l) c = 0 := by
  simp [colIdx, List.findIdx_cons]

theorem colIdx_append {c : String} (l₁ l₂ : List String) (h : c ∉ l₁) :
    colIdx (l₁ ++ l₂) c = l₁.length + colIdx l₂ c := by
  unfold colIdx
  rw [List.findIdx_append]
  have hall : List.findIdx (fun x => x == c) l₁ = l₁.length :=
    findIdx_all_false l₁ (fun x hx =>
      beq_eq_false_iff_ne.mpr (fun he => h (he ▸ hx)))
  rw [hall]
  simp [Nat.add_comm]

theorem eraseIdx_append_plus {α : Type} :
    ∀ (l₁ l₂ : List α) (k : Nat), (l₁ ++ l₂).eraseIdx (l₁.length + k) = l₁ ++ l₂.eraseIdx k := by
  intro l₁
  induction l₁ with
  | nil => intro l₂ k; simp
  | cons a l ih =>
      intro l₂ k
      have harith : (a :: l).length + k = (l.length + k) + 1 := by
        simp [List.length_cons]; omega
      rw [harith]
      simp only [List.cons_append, List.eraseIdx_cons_succ]
      rw [ih]

theorem getD_append_plus {α : Type} (l₁ l₂ : List α) (d : α) (k : Nat) :
    (l₁ ++ l₂).getD (l₁.length + k) d = l₂.getD k d := by
  rw [List.getD_append_right l₁ l₂ d _ (by omega)]
  simp

theorem eq_map_getD {α : Type} (l : List α) (d : α) :
    l = (List.range l.length).map (fun i => l.getD i d) := by
  refine List.ext_getElem (by simp) (fun n h1 h2 => ?_)
  simp only [List.getElem_map, List.getElem_range]
  rw [List.getD_eq_getElem l d h1]

theorem zip_range_eq {α : Type} (l : List α) (d : α) :
    l.zip (List.range l.length) = (List.range l.length).map (fun i => (l.getD i d, i)) := by
  refine List.ext_getElem (by simp) (fun n h1 h2 => ?_)
  have hn : n < l.length := by simpa using h2
  simp only [List.getElem_zip, List.getElem_map, List.getElem_range]
  rw [List.getD_eq_getElem l d hn]

theorem getD_map_lt {α β : Type} (l : List α) (f : α → β) (d : α) (d' : β) {i : Nat}
    (h : i < l.length) : (l.map f).getD i d' = f (l.getD i d) := by
  rw [List.getD_eq_getElem _ d' (by simpa using h), List.getD_eq_getElem _ d h]
  simp

/-! ## Counting helpers -/

theorem list_sum_map_range (f : Nat → Nat) (n : Nat) :
    ((List.range n).map f).sum = ∑ i ∈ Finset.range n, f i := by
  induction n with
  | zero => rfl
  | succ n ih => rw [List.range_succ, List.map_append, List.sum_append,
      Finset.sum_range_succ, ih]; simp

theorem filter_lt_range_length (i n : Nat) :
    ((List.range n).filter (fun j => decide (i < j))).length = n - (i + 1) := by
  induction n with
  | zero => simp
  | succ n ih =>
      rw [List.range_succ, List.filter_append]
      by_cases h : i < n
      · simp only [List.length_append, ih, List.filter_cons, List.filter_nil]
        rw [if_pos (by simpa using h)]
        simp only [List.length_cons, List.length_nil]
        omega
      · simp only [List.length_append, ih, List.filter_cons, List.filter_nil]
        rw [if_neg (by simpa using h)]
        simp only [List.length_nil]
        omega

theorem filter_gt_range_length (i n : Nat) :
    ((List.range n).filter (fun j => decide (j < i))).length = min i n := by
  induction n with
  | zero => simp
  | succ n ih =>
      rw [List.range_succ, List.filter_append]
      by_cases h : n < i
      · simp only [List.length_append, ih, List.filter_cons, List.filter_nil]
        rw [if_pos (by simpa using h)]
        simp only [List.length_cons, List.length_nil]
        omega
      · simp only [List.length_append, ih, List.filter_cons, List.filter_nil]
        rw [if_neg (by simpa using h)]
        simp only [List.length_nil]
        omega

theorem gauss_sum (n : Nat) : ∑ i ∈ Finset.range n, i = n * (n - 1) / 2 := by
  have h := Finset.sum_range_id_mul_two n
  generalize hK : n * (n - 1) = K at h
  omega

/-! ## The index-pair lists behind both engines -/

theorem mem_crossPairs {m k : Nat} {p : Nat × Nat} :
    p ∈ crossPairs m k ↔ p.1 < m ∧ p.2 < k := by
  cases p with
  | mk a b =>
      simp only [crossPairs, List.mem_flatMap, List.mem_map, List.mem_range]
      constructor
      · rintro ⟨i, hi, j, hj, he⟩
        obtain ⟨rfl, rfl⟩ := Prod.mk.injEq .. ▸ And.intro (congrArg Prod.fst he) (congrArg Prod.snd he)
        exact ⟨hi, hj⟩
      · rintro ⟨ha, hb⟩
        exact ⟨a, ha, b, hb, rfl⟩

theorem mem_upperTriPairs {n : Nat} {p : Nat × Nat} :
    p ∈ upperTriPairs n ↔ p.1 < p.2 ∧ p.2 < n := by
  cases p with
  | mk a b =>
      simp only [upperTriPairs, List.mem_flatMap, List.mem_map, List.mem_filter,
        List.mem_range, decide_eq_true_eq]
      constructor
      · rintro ⟨i, hi, j, ⟨hj, hij⟩, he⟩
        have h1 : i = a := congrArg Prod.fst he
        have h2 : j = b := congrArg Prod.snd he
        subst h1; subst h2
        exact ⟨hij, hj⟩
      · rintro ⟨hab, hb⟩
        exact ⟨a, by omega, b, ⟨hb, hab⟩, rfl⟩

theorem mem_lowerTriPairs {n : Nat} {p : Nat × Nat} :
    p ∈ lowerTriPairs n ↔ p.2 < p.1 ∧ p.1 < n := by
  simp only [lowerTriPairs, List.mem_filter, mem_crossPairs, decide_eq_true_eq]
  constructor
  · rintro ⟨⟨h1, _⟩, h3⟩; exact ⟨h3, h1⟩
  · rintro ⟨h1, h2⟩; exact ⟨⟨h2, by omega⟩, h1⟩

theorem nodup_crossPairs (m k : Nat) : (crossPairs m k).Nodup := by
  unfold crossPairs
  rw [List.nodup_flatMap]
  constructor
  · intro i _
    exact (List.nodup_range k).map (fun a b h => (Prod.mk.injEq i a i b ▸ h).2)
  · have hlt : List.Pairwise (· < ·) (List.range m) := List.pairwise_lt_range m
    refine hlt.imp (fun {i i'} hii' => ?_)
    intro x hx hx'
    rcases List.mem_map.mp hx with ⟨j, _, rfl⟩
    rcases List.mem_map.mp hx' with ⟨j', _, he⟩
    have : i' = i := congrArg Prod.fst he
    omega

theorem nodup_upperTriPairs (n : Nat) : (upperTriPairs n).Nodup := by
  unfold upperTriPairs
  rw [List.nodup_flatMap]
  constructor
  · intro i _
    exact (((List.nodup_range n).filter _).map (fun a b h => (Prod.mk.injEq i a i b ▸ h).2))
  · have hlt : List.Pairwise (· < ·) (List.range (n - 1)) := List.pairwise_lt_range (n - 1)
    refine hlt.imp (fun {i i'} hii' => ?_)
    intro x hx hx'
    rcases List.mem_map.mp hx with ⟨j, _, rfl⟩
    rcases List.mem_map.mp hx' with ⟨j', _, he⟩
    have : i' = i := congrArg Prod.fst he
    omega

theorem nodup_lowerTriPairs (n : Nat) : (lowerTriPairs n).Nodup :=
  (nodup_crossPairs n n).filter _

theorem crossPairs_length (m k : Nat) : (crossPairs m k).length = m * k := by
  unfold crossPairs
  rw [List.length_flatMap]
  have hmap : (List.range m).map (List.length ∘ fun i => (List.range k).map fun j => (i, j)) =
      (List.range m).map (fun _ => k) := by
    refine List.map_congr_left (fun i _ => ?_)
    simp
  rw [hmap, list_sum_map_range]
  simp [Finset.sum_const, Nat.mul_comm]

theorem upperTriPairs_length (n : Nat) : (upperTriPairs n).length = n * (n - 1) / 2 := by
  unfold upperTriPairs
  rw [List.length_flatMap]
  have hmap : (List.range (n - 1)).map
        (List.length ∘ fun i => ((List.range n).filter (fun j => decide (i < j))).map fun j => (i, j)) =
      (List.range (n - 1)).map (fun i => n - (i + 1)) := by
    refine List.map_congr_left (fun i _ => ?_)
    simp [filter_lt_range_length]
  rw [hmap, list_sum_map_range]
  rcases Nat.eq_zero_or_pos n with hn | hn
  · subst hn; simp
  · obtain ⟨m, rfl⟩ : ∃ m, n = m + 1 := ⟨n - 1, by omega⟩
    simp only [Nat.add_sub_cancel]
    have hpt : ∀ i ∈ Finset.range m, m + 1 - (i + 1) = m - i := fun i _ => by omega
    rw [Finset.sum_congr rfl (fun i hi => hpt i hi)]
    have hrefl := Finset.sum_range_reflect (fun j => j + 1) m
    have hpt2 : ∀ i ∈ Finset.range m, m - 1 - i + 1 = m - i := fun i hi => by
      have := Finset.mem_range.mp hi; omega
    rw [Finset.sum_congr rfl hpt2] at hrefl
    rw [hrefl, Finset.sum_add_distrib, gauss_sum]
    simp only [Finset.sum_const, Finset.card_range, smul_eq_mul, Nat.mul_one,
      Nat.add_sub_cancel]
    have h2 : 2 ∣ m * (m - 1) := (Nat.even_mul_pred_self m).two_dvd
    have key : (m + 1) * m = m * (m - 1) + 2 * m := by
      cases m with
      | zero => rfl
      | succ k => simp only [Nat.add_sub_cancel]; ring
    rw [key]
    generalize m * (m - 1) = X at h2 ⊢
    omega

theorem lowerTriPairs_length (n : Nat) : (lowerTriPairs n).length = n * (n - 1) / 2 := by
  unfold lowerTriPairs crossPairs
  rw [List.filter_flatMap]
  rw [List.length_flatMap]
  have hmap : (List.range n).map
        (List.length ∘ fun i => List.filter (fun p => decide (p.2 < p.1)) ((List.range n).map fun j => (i, j))) =
      (List.range n).map (fun i => min i n) := by
    refine List.map_congr_left (fun i _ => ?_)
    simp only [Function.comp_apply, List.filter_map, List.length_map]
    have : ((fun p : Nat × Nat => decide (p.2 < p.1)) ∘ fun j => (i, j)) =
        (fun j => decide (j < i)) := by
      funext j; simp
    rw [this, filter_gt_range_length]
  rw [hmap, list_sum_map_range]
  have hpt : ∀ i ∈ Finset.range n, min i n = i := fun i hi => by
    have := Finset.mem_range.mp hi; omega
  rw [Finset.sum_congr rfl hpt, gauss_sum]

theorem count_eq_one_of_nodup_mem {α : Type} [BEq α] [LawfulBEq α] {a : α} :
    ∀ {l : List α}, l.Nodup → a ∈ l → l.count a = 1 := by
  intro l
  induction l with
  | nil => intro _ h; cases h
  | cons b l ih =>
      intro hnd hm
      rw [List.count_cons]
      rcases List.mem_cons.mp hm with rfl | hm'
      · have hbl : a ∉ l := (List.nodup_cons.mp hnd).1
        rw [List.count_eq_zero_of_not_mem hbl]
        simp
      · have hc := ih (List.nodup_cons.mp hnd).2 hm'
        rw [hc]
        have hba : b ≠ a := fun he => ((List.nodup_cons.mp hnd).1 (he ▸ hm'))
        simp [hba]

theorem pairProps_upperTriPairs (n : Nat) : pairProps (upperTriPairs n) n := by
  refine ⟨fun p hp => ?_, fun j hj i hij => ?_, upperTriPairs_length n⟩
  · have := mem_upperTriPairs.mp hp
    omega
  · have h1 : (i, j) ∈ upperTriPairs n := mem_upperTriPairs.mpr ⟨hij, hj⟩
    have h2 : (j, i) ∉ upperTriPairs n := fun hm => by
      have := mem_upperTriPairs.mp hm; simp at this; omega
    rw [count_eq_one_of_nodup_mem (nodup_upperTriPairs n) h1,
      List.count_eq_zero_of_not_mem h2]

theorem pairProps_lowerTriPairs (n : Nat) : pairProps (lowerTriPairs n) n := by
  refine ⟨fun p hp => ?_, fun j hj i hij => ?_, lowerTriPairs_length n⟩
  · have := mem_lowerTriPairs.mp hp
    omega
  · have h1 : (j, i) ∈ lowerTriPairs n := mem_lowerTriPairs.mpr ⟨by omega, hj⟩
    have h2 : (i, j) ∉ lowerTriPairs n := fun hm => by
      have := mem_lowerTriPairs.mp hm; simp at this; omega
    rw [count_eq_one_of_nodup_mem (nodup_lowerTriPairs n) h1,
      List.count_eq_zero_of_not_mem h2]

theorem upperTri_perm_swap_lowerTri (n : Nat) :
    (upperTriPairs n).Perm ((lowerTriPairs n).map Prod.swap) := by
  refine (List.perm_ext_iff_of_nodup (nodup_upperTriPairs n)
    ((nodup_lowerTriPairs n).map Prod.swap_injective)).mpr (fun p => ?_)
  rw [mem_upperTriPairs]
  constructor
  · rintro ⟨h1, h2⟩
    exact List.mem_map.mpr ⟨p.swap, mem_lowerTriPairs.mpr (by simp [Prod.swap]; omega),
      Prod.swap_swap p⟩
  · intro hm
    rcases List.mem_map.mp hm with ⟨q, hq, rfl⟩
    have := mem_lowerTriPairs.mp hq
    simp [Prod.swap]
    omega

theorem map_crossPairs {β : Type} (m k : Nat) (v : Nat × Nat → β) :
    (crossPairs m k).map v =
      (List.range m).flatMap (fun i => (List.range k).map (fun j => v (i, j))) := by
  simp only [crossPairs, List.map_flatMap, List.map_map]
  rfl

theorem map_upperTriPairs {β : Type} (n : Nat) (v : Nat × Nat → β) :
    (upperTriPairs n).map v =
      (List.range (n - 1)).flatMap (fun i =>
        ((List.range n).filter (fun j => decide (i < j))).map (fun j => v (i, j))) := by
  simp only [upperTriPairs, List.map_flatMap, List.map_map]
  rfl

theorem crossPairs_perm_swap (m k : Nat) :
    (crossPairs k m).Perm ((crossPairs m k).map Prod.swap) := by
  refine (List.perm_ext_iff_of_nodup (nodup_crossPairs k m)
    ((nodup_crossPairs m k).map Prod.swap_injective)).mpr (fun p => ?_)
  rw [mem_crossPairs]
  constructor
  · rintro ⟨h1, h2⟩
    exact List.mem_map.mpr ⟨p.swap, mem_crossPairs.mpr (by simp [Prod.swap]; omega),
      Prod.swap_swap p⟩
  · intro hm
    rcases List.mem_map.mp hm with ⟨q, hq, rfl⟩
    have := mem_crossPairs.mp hq
    simp [Prod.swap]
    omega

/-! ## Characterization of the diff-mode engine -/

theorem absdiff_false_eq (A B : DFrame) :
    abs_diff_between_all_row_pairs A B false = some ⟨A.cols,
      (crossPairs B.rows.length A.rows.length).map (fun p =>
        absDiffVec (A.rows.getD p.2 []) (B.rows.getD p.1 []))⟩ := by
  rw [map_crossPairs]
  rfl

theorem absdiff_true_eq (A B : DFrame) (h : 2 ≤ A.rows.length) :
    abs_diff_between_all_row_pairs A B true = some ⟨A.cols,
      (upperTriPairs A.rows.length).map (fun p =>
        absDiffVec (A.rows.getD p.2 []) (B.rows.getD p.1 []))⟩ := by
  rw [map_upperTriPairs]
  unfold abs_diff_between_all_row_pairs
  rw [if_pos rfl, if_neg (by omega)]

theorem absdiff_true_none (A B : DFrame) (h : A.rows.length ≤ 1) :
    abs_diff_between_all_row_pairs A B true = none := by
  unfold abs_diff_between_all_row_pairs
  rw [if_pos rfl, if_pos h]

/-! ## Characterization of the concat-mode engine -/

theorem addConstCol_cols (df : DFrame) (c : String) (v : Int) :
    (addConstCol df c v).cols = df.cols ++ [c] := rfl

theorem addConstCol_rows (df : DFrame) (c : String) (v : Int) :
    (addConstCol df c v).rows = df.rows.map (fun r => r ++ [v]) := rfl

theorem addIndexCol_cols (df : DFrame) (c : String) :
    (addIndexCol df c).cols = df.cols ++ [c] := rfl

theorem addIndexCol_rows (df : DFrame) (c : String) :
    (addIndexCol df c).rows =
      (List.range df.rows.length).map (fun i => df.rows.getD i [] ++ [(i : Int)]) := by
  unfold addIndexCol
  simp only []
  rw [zip_range_eq df.rows [], List.map_map]
  rfl

theorem merge_cols (A B : DFrame) (onc sA sB : String) :
    (merge A B onc sA sB).cols = mergeCols A.cols B.cols onc sA sB := rfl

theorem merge_rows_const_key (A B : DFrame) (onc sA sB : String)
    (hkeyA : ∀ r ∈ A.rows, r.getD (colIdx A.cols onc) 0 = 0)
    (hkeyB : ∀ r ∈ B.rows, r.getD (colIdx B.cols onc) 0 = 0) :
    (merge A B onc sA sB).rows =
      A.rows.flatMap (fun ra =>
        B.rows.map (fun rb => ra ++ rb.eraseIdx (colIdx B.cols onc))) := by
  unfold merge
  simp only []
  refine List.flatMap_congr (fun ra hra => ?_)
  have hfil : B.rows.filter
      (fun rb => rb.getD (colIdx B.cols onc) 0 == ra.getD (colIdx A.cols onc) 0) = B.rows := by
    rw [List.filter_eq_self]
    intro rb hrb
    rw [hkeyB rb hrb, hkeyA ra hra]
    rfl
  rw [hfil]

theorem dropCol_cols (df : DFrame) (c : String) :
    (df.dropCol c).cols = df.cols.eraseIdx (colIdx df.cols c) := rfl

theorem dropCol_rows (df : DFrame) (c : String) :
    (df.dropCol c).rows = df.rows.map (fun r => r.eraseIdx (colIdx df.cols c)) := rfl

theorem filterGtCols_cols (df : DFrame) (cA cB : String) :
    (df.filterGtCols cA cB).cols = df.cols := rfl

theorem filterGtCols_rows (df : DFrame) (cA cB : String) :
    (df.filterGtCols cA cB).rows = df.rows.filter (fun r =>
      decide (r.getD (colIdx df.cols cB) 0 < r.getD (colIdx df.cols cA) 0)) := rfl

theorem mergeCols_self (L : List String) :
    mergeCols L L "_tmp_cart_prod" "_A" "_B" =
      L.map (fun c => if c = "_tmp_cart_prod" then c else c ++ "_A") ++
      (L.filter (fun c => !(c == "_tmp_cart_prod"))).map (fun c => c ++ "_B") := by
  unfold mergeCols
  congr 1
  · exact List.map_congr_left (fun c hc => by by_cases h : c = "_tmp_cart_prod" <;> simp [h, hc])
  · refine List.map_congr_left (fun c hc => ?_)
    have := (List.mem_filter.mp hc).1
    simp [this]

theorem map_suffix_tail (fns tail : List String)
    (htc : "_tmp_cart_prod" ∉ fns) :
    (fns ++ tail).map (fun c => if c = "_tmp_cart_prod" then c else c ++ "_A") =
      fns.map (· ++ "_A") ++
        tail.map (fun c => if c = "_tmp_cart_prod" then c else c ++ "_A") := by
  rw [List.map_append]
  congr 1
  exact List.map_congr_left (fun c hc => by
    have hne : c ≠ "_tmp_cart_prod" := fun he => htc (he ▸ hc)
    simp [hne])

theorem filter_suffix_tail (fns tail : List String)
    (htc : "_tmp_cart_prod" ∉ fns) :
    (fns ++ tail).filter (fun c => !(c == "_tmp_cart_prod")) =
      fns ++ tail.filter (fun c => !(c == "_tmp_cart_prod")) := by
  rw [List.filter_append]
  congr 1
  exact List.filter_eq_self.mpr (fun c hc => by
    have hne : c ≠ "_tmp_cart_prod" := fun he => htc (he ▸ hc)
    simp [hne])

theorem tailmap_true : ["_tmp_cart_prod", "_tmp_row_number"].map
    (fun c => if c = "_tmp_cart_prod" then c else c ++ "_A") =
      ["_tmp_cart_prod", "_tmp_row_number_A"] := by decide

theorem tailfilter_true : ["_tmp_cart_prod", "_tmp_row_number"].filter
    (fun c => !(c == "_tmp_cart_prod")) = ["_tmp_row_number"] := by decide

theorem tailmap_false : ["_tmp_cart_prod"].map
    (fun c => if c = "_tmp_cart_prod" then c else c ++ "_A") = ["_tmp_cart_prod"] := by decide

theorem tailfilter_false : ["_tmp_cart_prod"].filter
    (fun c => !(c == "_tmp_cart_prod")) = ([] : List String) := by decide

/-- Column schema of the merge inside `cartesian_product`, `within_A = false`. -/
theorem merged_cols_false (fns : List String) (htc : "_tmp_cart_prod" ∉ fns) :
    mergeCols (fns ++ ["_tmp_cart_prod"]) (fns ++ ["_tmp_cart_prod"])
        "_tmp_cart_prod" "_A" "_B" =
      fns.map (· ++ "_A") ++ ("_tmp_cart_prod" :: fns.map (· ++ "_B")) := by
  rw [mergeCols_self, map_suffix_tail _ _ htc, filter_suffix_tail _ _ htc,
    tailmap_false, tailfilter_false, List.append_nil]
  have hmapB : fns.map (fun c => c ++ "_B") = fns.map (· ++ "_B") := rfl
  rw [hmapB, List.append_assoc]
  rfl

/-- Column schema of the merge inside `cartesian_product`, `within_A = true`. -/
theorem merged_cols_true (fns : List String) (htc : "_tmp_cart_prod" ∉ fns) :
    mergeCols ((fns ++ ["_tmp_cart_prod"]) ++ ["_tmp_row_number"])
        ((fns ++ ["_tmp_cart_prod"]) ++ ["_tmp_row_number"])
        "_tmp_cart_prod" "_A" "_B" =
      fns.map (· ++ "_A") ++ ("_tmp_cart_prod" :: "_tmp_row_number_A" ::
        (fns.map (· ++ "_B") ++ ["_tmp_row_number_B"])) := by
  have hL : (fns ++ ["_tmp_cart_prod"]) ++ ["_tmp_row_number"] =
      fns ++ ["_tmp_cart_prod", "_tmp_row_number"] := by
    rw [List.append_assoc]; rfl
  rw [hL, mergeCols_self, map_suffix_tail _ _ htc, filter_suffix_tail _ _ htc,
    tailmap_true, tailfilter_true]
  have hmapB : (fns ++ ["_tmp_row_number"]).map (fun c => c ++ "_B") =
      fns.map (· ++ "_B") ++ ["_tmp_row_number_B"] := by
    rw [List.map_append, trB_eq_append]
    rfl
  rw [hmapB, List.append_assoc]
  rfl

/-- The output schema of `cartesian_product` in either mode: each feature
column twice, first the `_A` block then the `_B` block. -/
theorem cart_cols (A B : DFrame) (fns : List String) (w : Bool)
    (hA : A.cols = fns) (hB : B.cols = fns) (hg : goodCols fns) :
    ((cartesian_product A B w).2.2).cols =
      fns.map (· ++ "_A") ++ fns.map (· ++ "_B") := by
  obtain ⟨htc, htr⟩ := hg
  cases w with
  | false =>
      have e : ((cartesian_product A B false).2.2) =
          ((merge (addConstCol A "_tmp_cart_prod" 0) (addConstCol B "_tmp_cart_prod" 0)
            "_tmp_cart_prod" "_A" "_B").dropCol "_tmp_cart_prod") := rfl
      rw [e, dropCol_cols, merge_cols, addConstCol_cols, addConstCol_cols, hA, hB,
        merged_cols_false fns htc]
      rw [colIdx_append _ _ (tmpcart_not_mem_suffA fns), colIdx_cons_self,
        eraseIdx_append_plus, List.eraseIdx_cons_zero]
  | true =>
      have e : ((cartesian_product A B true).2.2) =
          (((((merge (addIndexCol (addConstCol A "_tmp_cart_prod" 0) "_tmp_row_number")
                (addIndexCol (addConstCol B "_tmp_cart_prod" 0) "_tmp_row_number")
                "_tmp_cart_prod" "_A" "_B").dropCol
              "_tmp_cart_prod").filterGtCols "_tmp_row_number_A"
              "_tmp_row_number_B").dropCol "_tmp_row_number_A").dropCol
            "_tmp_row_number_B") := rfl
      rw [e, dropCol_cols, dropCol_cols, filterGtCols_cols, dropCol_cols, merge_cols,
        addIndexCol_cols, addIndexCol_cols, addConstCol_cols, addConstCol_cols, hA, hB,
        merged_cols_true fns htc]
      rw [colIdx_append _ _ (tmpcart_not_mem_suffA fns), colIdx_cons_self,
        eraseIdx_append_plus, List.eraseIdx_cons_zero]
      rw [colIdx_append _ _ (trA_not_mem_suffA htr), colIdx_cons_self,
        eraseIdx_append_plus, List.eraseIdx_cons_zero]
      rw [colIdx_append _ _ (trB_not_mem_suffA fns),
        colIdx_append _ _ (trB_not_mem_suffB htr), colIdx_cons_self]
      rw [eraseIdx_append_plus, eraseIdx_append_plus, List.eraseIdx_cons_zero,
        List.append_nil]

/-- Row content of `cartesian_product` with `within_A = false`: one output
row per cross-join pair, in left-major order, the left row's features then
the right row's. -/
theorem cart_false_rows (A B : DFrame) (fns : List String)
    (hA : A.cols = fns) (hB : B.cols = fns) (htc : "_tmp_cart_prod" ∉ fns)
    (hwA : wfRows A fns.length) (hwB : wfRows B fns.length) :
    ((cartesian_product A B false).2.2).rows =
      (crossPairs A.rows.length B.rows.length).map (fun p =>
        A.rows.getD p.1 [] ++ B.rows.getD p.2 []) := by
  have e : ((cartesian_product A B false).2.2) =
      ((merge (addConstCol A "_tmp_cart_prod" 0) (addConstCol B "_tmp_cart_prod" 0)
        "_tmp_cart_prod" "_A" "_B").dropCol "_tmp_cart_prod") := rfl
  have hkA : colIdx (addConstCol A "_tmp_cart_prod" 0).cols "_tmp_cart_prod" =
      fns.length + 0 := by
    rw [addConstCol_cols, hA, colIdx_append _ _ htc, colIdx_cons_self]
  have hkB : colIdx (addConstCol B "_tmp_cart_prod" 0).cols "_tmp_cart_prod" =
      fns.length + 0 := by
    rw [addConstCol_cols, hB, colIdx_append _ _ htc, colIdx_cons_self]
  have hkeyA : ∀ r ∈ (addConstCol A "_tmp_cart_prod" 0).rows,
      r.getD (colIdx (addConstCol A "_tmp_cart_prod" 0).cols "_tmp_cart_prod") 0 = 0 := by
    intro r hr
    rw [addConstCol_rows] at hr
    rcases List.mem_map.mp hr with ⟨a, ha, rfl⟩
    rw [hkA, ← hwA a ha, getD_append_plus]
    rfl
  have hkeyB : ∀ r ∈ (addConstCol B "_tmp_cart_prod" 0).rows,
      r.getD (colIdx (addConstCol B "_tmp_cart_prod" 0).cols "_tmp_cart_prod") 0 = 0 := by
    intro r hr
    rw [addConstCol_rows] at hr
    rcases List.mem_map.mp hr with ⟨b, hb, rfl⟩
    rw [hkB, ← hwB b hb, getD_append_plus]
    rfl
  have hidx : colIdx (merge (addConstCol A "_tmp_cart_prod" 0)
      (addConstCol B "_tmp_cart_prod" 0) "_tmp_cart_prod" "_A" "_B").cols
      "_tmp_cart_prod" = (fns.map (· ++ "_A")).length + 0 := by
    rw [merge_cols, addConstCol_cols, addConstCol_cols, hA, hB, merged_cols_false fns htc,
      colIdx_append _ _ (tmpcart_not_mem_suffA fns), colIdx_cons_self]
  rw [e, dropCol_rows, hidx, merge_rows_const_key _ _ _ _ _ hkeyA hkeyB, hkB]
  rw [addConstCol_rows, addConstCol_rows]
  rw [List.map_flatMap, List.flatMap_map]
  simp only [List.map_map]
  have hpoint : ∀ a ∈ A.rows, ∀ b ∈ B.rows,
      ((a ++ [(0 : Int)]) ++ ((b ++ [(0 : Int)]).eraseIdx (fns.length + 0))).eraseIdx
        ((fns.map (· ++ "_A")).length + 0) = a ++ b := by
    intro a ha b hb
    have hbl : fns.length = b.length := (hwB b hb).symm
    rw [hbl, eraseIdx_append_plus, List.eraseIdx_cons_zero, List.append_nil]
    rw [List.length_map]
    have hal : fns.length = a.length := (hwA a ha).symm
    rw [hal, List.append_assoc, eraseIdx_append_plus, List.singleton_append,
      List.eraseIdx_cons_zero]
  refine (List.flatMap_congr (fun a ha => List.map_congr_left
    (fun b hb => hpoint a ha b hb))).trans ?_
  rw [map_crossPairs]
  conv_lhs => rw [eq_map_getD A.rows []]
  rw [List.flatMap_map]
  refine List.flatMap_congr (fun i hi => ?_)
  conv_lhs => rw [eq_map_getD B.rows []]
  rw [List.map_map]
  rfl

theorem eraseIdx_append_exact {α : Type} (l₁ l₂ : List α) (k m : Nat)
    (hm : m = l₁.length + k) :
    (l₁ ++ l₂).eraseIdx m = l₁ ++ l₂.eraseIdx k := by
  rw [hm, eraseIdx_append_plus]

theorem getD_append_exact {α : Type} (l₁ l₂ : List α) (d : α) (k m : Nat)
    (hm : m = l₁.length + k) :
    (l₁ ++ l₂).getD m d = l₂.getD k d := by
  rw [hm, getD_append_plus]

theorem colIdx_cons_ne {c b : String} (l : List String) (h : b ≠ c) :
    colIdx (b :: l) c = colIdx l c + 1 := by
  unfold colIdx
  rw [List.findIdx_cons, beq_eq_false_iff_ne.mpr h]
  rfl

/-- Row content of `cartesian_product` with `within_A = true` on one group:
exactly the cross-join rows with `index_A > index_B` survive, in join order,
carrying the `A`-indexed row's features then the `B`-indexed row's. -/
theorem cart_true_rows (A : DFrame) (fns : List String)
    (hA : A.cols = fns) (htc : "_tmp_cart_prod" ∉ fns) (htr : "_tmp_row_number" ∉ fns)
    (hwA : wfRows A fns.length) :
    ((cartesian_product A A true).2.2).rows =
      (lowerTriPairs A.rows.length).map (fun p =>
        A.rows.getD p.1 [] ++ A.rows.getD p.2 []) := by
  have hlen : ∀ i, i < A.rows.length → (A.rows.getD i []).length = fns.length := by
    intro i hi
    refine hwA _ ?_
    rw [List.getD_eq_getElem _ _ hi]
    exact List.getElem_mem hi
  have e : ((cartesian_product A A true).2.2) =
      (((((merge (addIndexCol (addConstCol A "_tmp_cart_prod" 0) "_tmp_row_number")
            (addIndexCol (addConstCol A "_tmp_cart_prod" 0) "_tmp_row_number")
            "_tmp_cart_prod" "_A" "_B").dropCol
          "_tmp_cart_prod").filterGtCols "_tmp_row_number_A"
          "_tmp_row_number_B").dropCol "_tmp_row_number_A").dropCol
        "_tmp_row_number_B") := rfl
  have hA2cols : (addIndexCol (addConstCol A "_tmp_cart_prod" 0) "_tmp_row_number").cols =
      fns ++ ["_tmp_cart_prod", "_tmp_row_number"] := by
    rw [addIndexCol_cols, addConstCol_cols, hA, List.append_assoc]
    rfl
  have hA2rows : (addIndexCol (addConstCol A "_tmp_cart_prod" 0) "_tmp_row_number").rows =
      (List.range A.rows.length).map (fun i =>
        (A.rows.getD i [] ++ [(0 : Int)]) ++ [(i : Int)]) := by
    rw [addIndexCol_rows, addConstCol_rows, List.length_map]
    refine List.map_congr_left (fun i hi => ?_)
    have hilt : i < A.rows.length := List.mem_range.mp hi
    rw [getD_map_lt A.rows _ [] [] hilt]
  have hcol2 : colIdx (addIndexCol (addConstCol A "_tmp_cart_prod" 0)
      "_tmp_row_number").cols "_tmp_cart_prod" = fns.length + 0 := by
    rw [hA2cols, colIdx_append _ _ htc, colIdx_cons_self]
  have hkey2 : ∀ r ∈ (addIndexCol (addConstCol A "_tmp_cart_prod" 0) "_tmp_row_number").rows,
      r.getD (colIdx (addIndexCol (addConstCol A "_tmp_cart_prod" 0)
        "_tmp_row_number").cols "_tmp_cart_prod") 0 = 0 := by
    intro r hr
    rw [hA2rows] at hr
    rcases List.mem_map.mp hr with ⟨i, hi, rfl⟩
    have hilt : i < A.rows.length := List.mem_range.mp hi
    rw [hcol2, List.append_assoc,
      getD_append_exact _ _ _ 0 _ (by rw [hlen i hilt])]
    rfl
  have hmerged : (merge (addIndexCol (addConstCol A "_tmp_cart_prod" 0) "_tmp_row_number")
      (addIndexCol (addConstCol A "_tmp_cart_prod" 0) "_tmp_row_number")
      "_tmp_cart_prod" "_A" "_B").rows =
      (crossPairs A.rows.length A.rows.length).map (fun p =>
        ((A.rows.getD p.1 [] ++ [(0 : Int)]) ++ [(p.1 : Int)]) ++
          (A.rows.getD p.2 [] ++ [(p.2 : Int)])) := by
    rw [merge_rows_const_key _ _ _ _ _ hkey2 hkey2, hcol2, hA2rows, List.flatMap_map]
    rw [map_crossPairs]
    refine List.flatMap_congr (fun i hi => ?_)
    rw [List.map_map]
    refine List.map_congr_left (fun j hj => ?_)
    have hjlt : j < A.rows.length := List.mem_range.mp hj
    simp only [Function.comp]
    congr 1
    rw [List.append_assoc, eraseIdx_append_exact _ _ 0 _ (by rw [hlen j hjlt]),
      List.singleton_append, List.eraseIdx_cons_zero]
  have hmergedcols : (merge (addIndexCol (addConstCol A "_tmp_cart_prod" 0) "_tmp_row_number")
      (addIndexCol (addConstCol A "_tmp_cart_prod" 0) "_tmp_row_number")
      "_tmp_cart_prod" "_A" "_B").cols =
      fns.map (· ++ "_A") ++ ("_tmp_cart_prod" :: "_tmp_row_number_A" ::
        (fns.map (· ++ "_B") ++ ["_tmp_row_number_B"])) := by
    rw [merge_cols, addIndexCol_cols, addConstCol_cols, hA, merged_cols_true fns htc]
  have hapcols : ((merge (addIndexCol (addConstCol A "_tmp_cart_prod" 0) "_tmp_row_number")
      (addIndexCol (addConstCol A "_tmp_cart_prod" 0) "_tmp_row_number")
      "_tmp_cart_prod" "_A" "_B").dropCol "_tmp_cart_prod").cols =
      fns.map (· ++ "_A") ++ ("_tmp_row_number_A" ::
        (fns.map (· ++ "_B") ++ ["_tmp_row_number_B"])) := by
    rw [dropCol_cols, hmergedcols, colIdx_append _ _ (tmpcart_not_mem_suffA fns),
      colIdx_cons_self, eraseIdx_append_plus, List.eraseIdx_cons_zero]
  have haprows : ((merge (addIndexCol (addConstCol A "_tmp_cart_prod" 0) "_tmp_row_number")
      (addIndexCol (addConstCol A "_tmp_cart_prod" 0) "_tmp_row_number")
      "_tmp_cart_prod" "_A" "_B").dropCol "_tmp_cart_prod").rows =
      (crossPairs A.rows.length A.rows.length).map (fun p =>
        A.rows.getD p.1 [] ++ ((p.1 : Int) ::
          (A.rows.getD p.2 [] ++ [(p.2 : Int)]))) := by
    rw [dropCol_rows, hmergedcols, colIdx_append _ _ (tmpcart_not_mem_suffA fns),
      colIdx_cons_self, hmerged, List.map_map]
    refine List.map_congr_left (fun p hp => ?_)
    obtain ⟨hp1, hp2⟩ := mem_crossPairs.mp hp
    simp only [Function.comp]
    rw [List.append_assoc, List.append_assoc,
      eraseIdx_append_exact _ _ 0 _ (by rw [List.length_map, hlen p.1 hp1]),
      List.singleton_append, List.eraseIdx_cons_zero, List.singleton_append]
  have hfil : (((merge (addIndexCol (addConstCol A "_tmp_cart_prod" 0) "_tmp_row_number")
      (addIndexCol (addConstCol A "_tmp_cart_prod" 0) "_tmp_row_number")
      "_tmp_cart_prod" "_A" "_B").dropCol "_tmp_cart_prod").filterGtCols
      "_tmp_row_number_A" "_tmp_row_number_B").rows =
      (lowerTriPairs A.rows.length).map (fun p =>
        A.rows.getD p.1 [] ++ ((p.1 : Int) ::
          (A.rows.getD p.2 [] ++ [(p.2 : Int)]))) := by
    rw [filterGtCols_rows, hapcols, haprows]
    have hiA : colIdx (fns.map (· ++ "_A") ++ ("_tmp_row_number_A" ::
        (fns.map (· ++ "_B") ++ ["_tmp_row_number_B"]))) "_tmp_row_number_A" =
        (fns.map (· ++ "_A")).length + 0 := by
      rw [colIdx_append _ _ (trA_not_mem_suffA htr), colIdx_cons_self]
    have hiB : colIdx (fns.map (· ++ "_A") ++ ("_tmp_row_number_A" ::
        (fns.map (· ++ "_B") ++ ["_tmp_row_number_B"]))) "_tmp_row_number_B" =
        (fns.map (· ++ "_A")).length + (((fns.map (· ++ "_B")).length + 0) + 1) := by
      rw [colIdx_append _ _ (trB_not_mem_suffA fns),
        colIdx_cons_ne _ (by decide),
        colIdx_append _ _ (trB_not_mem_suffB htr), colIdx_cons_self]
    rw [hiA, hiB, List.filter_map]
    refine congrArg (List.map _) ?_
    have hlow : lowerTriPairs A.rows.length =
        (crossPairs A.rows.length A.rows.length).filter
          (fun p => decide (p.2 < p.1)) := rfl
    rw [hlow]
    refine List.filter_congr (fun p hp => ?_)
    obtain ⟨hp1, hp2⟩ := mem_crossPairs.mp hp
    simp only [Function.comp]
    have hm1 : (fns.map (· ++ "_A")).length + (((fns.map (· ++ "_B")).length + 0) + 1) =
        (A.rows.getD p.1 []).length + (((fns.map (· ++ "_B")).length + 0) + 1) := by
      rw [List.length_map, hlen p.1 hp1]
    have hm2 : (fns.map (· ++ "_B")).length = (A.rows.getD p.2 []).length + 0 := by
      rw [List.length_map, hlen p.2 hp2]
      omega
    have hm3 : (fns.map (· ++ "_A")).length + 0 = (A.rows.getD p.1 []).length + 0 := by
      rw [List.length_map, hlen p.1 hp1]
    rw [getD_append_exact _ _ _ _ _ hm1, List.getD_cons_succ,
      getD_append_exact _ _ _ _ _ hm2, List.getD_cons_zero,
      getD_append_exact _ _ _ _ _ hm3, List.getD_cons_zero]
    simp only [decide_eq_decide]
    exact Int.ofNat_lt
  have hd1 : ((((merge (addIndexCol (addConstCol A "_tmp_cart_prod" 0) "_tmp_row_number")
      (addIndexCol (addConstCol A "_tmp_cart_prod" 0) "_tmp_row_number")
      "_tmp_cart_prod" "_A" "_B").dropCol "_tmp_cart_prod").filterGtCols
      "_tmp_row_number_A" "_tmp_row_number_B").dropCol "_tmp_row_number_A").rows =
      (lowerTriPairs A.rows.length).map (fun p =>
        A.rows.getD p.1 [] ++ (A.rows.getD p.2 [] ++ [(p.2 : Int)])) := by
    rw [dropCol_rows, filterGtCols_cols, hapcols,
      colIdx_append _ _ (trA_not_mem_suffA htr), colIdx_cons_self, hfil, List.map_map]
    refine List.map_congr_left (fun p hp => ?_)
    obtain ⟨hp1, hp2⟩ := mem_lowerTriPairs.mp hp
    simp only [Function.comp]
    have hm1 : (fns.map (· ++ "_A")).length + 0 = (A.rows.getD p.1 []).length + 0 := by
      rw [List.length_map, hlen p.1 (by omega)]
    rw [eraseIdx_append_exact _ _ _ _ hm1, List.eraseIdx_cons_zero]
  have hd1cols : ((((merge (addIndexCol (addConstCol A "_tmp_cart_prod" 0) "_tmp_row_number")
      (addIndexCol (addConstCol A "_tmp_cart_prod" 0) "_tmp_row_number")
      "_tmp_cart_prod" "_A" "_B").dropCol "_tmp_cart_prod").filterGtCols
      "_tmp_row_number_A" "_tmp_row_number_B").dropCol "_tmp_row_number_A").cols =
      fns.map (· ++ "_A") ++ (fns.map (· ++ "_B") ++ ["_tmp_row_number_B"]) := by
    rw [dropCol_cols, filterGtCols_cols, hapcols,
      colIdx_append _ _ (trA_not_mem_suffA htr), colIdx_cons_self,
      eraseIdx_append_plus, List.eraseIdx_cons_zero]
  rw [e, dropCol_rows, hd1cols, hd1, List.map_map,
    colIdx_append _ _ (trB_not_mem_suffA fns),
    colIdx_append _ _ (trB_not_mem_suffB htr), colIdx_cons_self]
  refine List.map_congr_left (fun p hp => ?_)
  obtain ⟨hp1, hp2⟩ := mem_lowerTriPairs.mp hp
  simp only [Function.comp]
  have hm1 : (fns.map (· ++ "_A")).length + ((fns.map (· ++ "_B")).length + 0) =
      (A.rows.getD p.1 []).length + ((fns.map (· ++ "_B")).length + 0) := by
    rw [List.length_map, hlen p.1 (by omega)]
  have hm2 : (fns.map (· ++ "_B")).length + 0 = (A.rows.getD p.2 []).length + 0 := by
    rw [List.length_map, hlen p.2 (by omega)]
  rw [eraseIdx_append_exact _ _ _ _ hm1, eraseIdx_append_exact _ _ _ _ hm2,
    List.eraseIdx_cons_zero, List.append_nil]

/-! ## The generator loop plumbing -/

theorem tryCollect_map_ok {α : Type} (l : List α) (f : α → Except PairError DFrame)
    (g : α → DFrame) (h : ∀ x ∈ l, f x = .ok (g x)) :
    tryCollect (l.map f) = .ok (l.map g) := by
  induction l with
  | nil => rfl
  | cons a l ih =>
      rw [List.map_cons, List.map_cons, h a (by simp)]
      show (tryCollect (l.map f)).map (fun ts => g a :: ts) = _
      rw [ih (fun x hx => h x (by simp [hx]))]
      rfl

theorem tryCollect_error_mem {l : List (Except PairError DFrame)} {e : PairError} :
    tryCollect l = .error e → Except.error e ∈ l := by
  induction l with
  | nil => intro h; cases h
  | cons x l ih =>
      intro h
      cases x with
      | error e2 =>
          have he : e2 = e := Except.error.inj h
          rw [he]
          exact List.mem_cons_self _ _
      | ok t =>
          have h2 : (tryCollect l).map (fun ts => t :: ts) = .error e := h
          cases htc : tryCollect l with
          | error e3 =>
              rw [htc] at h2
              have he : e3 = e := Except.error.inj h2
              exact List.mem_cons_of_mem _ (ih (he ▸ htc))
          | ok ts => rw [htc] at h2; cases h2

theorem concatTables_of_ne_nil (ts : List DFrame) (hne : ts ≠ []) (cs : List String)
    (hcols : ∀ t ∈ ts, t.cols = cs) :
    concatTables ts = .ok ⟨cs, ts.flatMap DFrame.rows⟩ := by
  cases ts with
  | nil => exact absurd rfl hne
  | cons t ts2 =>
      have : concatTables (t :: ts2) = .ok ⟨t.cols, (t :: ts2).flatMap DFrame.rows⟩ := rfl
      rw [this, hcols t (by simp)]

theorem concatTables_error {ts : List DFrame} {e : PairError}
    (h : concatTables ts = .error e) : e = .emptyPandasConcat := by
  cases ts with
  | nil => exact (Except.error.inj h).symm
  | cons t ts2 => cases h

theorem selectUserFeatures_cols (reg : RegTable) (u : String) (fns : List String) :
    (selectUserFeatures reg u fns).cols = fns := rfl

theorem selectUserFeatures_wf (reg : RegTable) (u : String) (fns : List String) :
    wfRows (selectUserFeatures reg u fns) fns.length := by
  intro r hr
  rcases List.mem_map.mp hr with ⟨x, _, rfl⟩
  exact List.length_map _ _

theorem selectUserFeatures_len (reg : RegTable) (u : String) (fns : List String) :
    (selectUserFeatures reg u fns).rows.length = userGroupSize reg u := by
  unfold selectUserFeatures userGroupSize
  rw [List.length_map]

/-! ## The four shapes of `get_pair_data` -/

theorem get_pair_data_cross_diff (A B : DFrame) :
    get_pair_data true A (some B) = some (A, B, ⟨A.cols,
      (crossPairs B.rows.length A.rows.length).map (fun p =>
        absDiffVec (A.rows.getD p.2 []) (B.rows.getD p.1 []))⟩) := by
  show (abs_diff_between_all_row_pairs A B false).map (fun out => (A, B, out)) = _
  rw [absdiff_false_eq]
  rfl

theorem get_pair_data_cross_concat (A B : DFrame) :
    get_pair_data false A (some B) = some (cartesian_product A B false) := rfl

theorem get_pair_data_within_diff_none (A : DFrame) (h : A.rows.length ≤ 1) :
    get_pair_data true A none = none := by
  show (abs_diff_between_all_row_pairs A A true).map (fun out => (A, A, out)) = none
  rw [absdiff_true_none _ _ h]
  rfl

theorem get_pair_data_within_diff (A : DFrame) (h : 2 ≤ A.rows.length) :
    get_pair_data true A none = some (A, A, ⟨A.cols,
      (upperTriPairs A.rows.length).map (fun p =>
        absDiffVec (A.rows.getD p.2 []) (A.rows.getD p.1 []))⟩) := by
  show (abs_diff_between_all_row_pairs A A true).map (fun out => (A, A, out)) = _
  rw [absdiff_true_eq _ _ h]
  rfl

theorem get_pair_data_within_concat (A : DFrame) :
    get_pair_data false A none = some (cartesian_product A A true) := rfl

/-! ## Per-work-item output facts -/

theorem pairItemTable_ok (reg : RegTable) (fns : List String) (od : Bool)
    (users : List String) (p : Nat × Nat) (hg : goodCols fns) :
    ∃ t : DFrame, pairItemTable reg fns od users p = .ok t ∧
      t.cols = schemaCols fns od ∧
      t.rows.length = userGroupSize reg (users.getD p.1 "") *
        userGroupSize reg (users.getD p.2 "") := by
  cases od with
  | true =>
      have hpt : pairItemTable reg fns true users p =
          .ok ⟨(selectUserFeatures reg (users.getD p.1 "") fns).cols,
            (crossPairs (selectUserFeatures reg (users.getD p.2 "") fns).rows.length
              (selectUserFeatures reg (users.getD p.1 "") fns).rows.length).map (fun q =>
              absDiffVec ((selectUserFeatures reg (users.getD p.1 "") fns).rows.getD q.2 [])
                ((selectUserFeatures reg (users.getD p.2 "") fns).rows.getD q.1 []))⟩ := by
        unfold pairItemTable
        rw [get_pair_data_cross_diff]
      refine ⟨_, hpt, ?_, ?_⟩
      · rw [selectUserFeatures_cols]
        rfl
      · rw [List.length_map, crossPairs_length, selectUserFeatures_len,
          selectUserFeatures_len, Nat.mul_comm]
  | false =>
      have hpt : pairItemTable reg fns false users p = .ok (cartesian_product
          (selectUserFeatures reg (users.getD p.1 "") fns)
          (selectUserFeatures reg (users.getD p.2 "") fns) false).2.2 := by
        unfold pairItemTable
        rw [get_pair_data_cross_concat]
      refine ⟨_, hpt, ?_, ?_⟩
      · exact cart_cols _ _ fns false (selectUserFeatures_cols _ _ _)
          (selectUserFeatures_cols _ _ _) hg
      · rw [cart_false_rows _ _ fns (selectUserFeatures_cols _ _ _)
            (selectUserFeatures_cols _ _ _) hg.1 (selectUserFeatures_wf _ _ _)
            (selectUserFeatures_wf _ _ _),
          List.length_map, crossPairs_length, selectUserFeatures_len,
          selectUserFeatures_len]

theorem withinItemTable_ok (reg : RegTable) (fns : List String) (od : Bool)
    (u : String) (hg : goodCols fns)
    (hsz : od = true → 2 ≤ userGroupSize reg u) :
    ∃ t : DFrame, withinItemTable reg fns od u = .ok t ∧
      t.cols = schemaCols fns od ∧
      t.rows.length = userGroupSize reg u * (userGroupSize reg u - 1) / 2 := by
  cases od with
  | true =>
      have h2 : 2 ≤ (selectUserFeatures reg u fns).rows.length := by
        rw [selectUserFeatures_len]; exact hsz rfl
      have hpt : withinItemTable reg fns true u =
          .ok ⟨(selectUserFeatures reg u fns).cols,
            (upperTriPairs (selectUserFeatures reg u fns).rows.length).map (fun q =>
              absDiffVec ((selectUserFeatures reg u fns).rows.getD q.2 [])
                ((selectUserFeatures reg u fns).rows.getD q.1 []))⟩ := by
        unfold withinItemTable
        rw [get_pair_data_within_diff _ h2]
      refine ⟨_, hpt, ?_, ?_⟩
      · rw [selectUserFeatures_cols]
        rfl
      · rw [List.length_map, upperTriPairs_length, selectUserFeatures_len]
  | false =>
      have hpt : withinItemTable reg fns false u = .ok (cartesian_product
          (selectUserFeatures reg u fns) (selectUserFeatures reg u fns) true).2.2 := by
        unfold withinItemTable
        rw [get_pair_data_within_concat]
      refine ⟨_, hpt, ?_, ?_⟩
      · exact cart_cols _ _ fns true (selectUserFeatures_cols _ _ _)
          (selectUserFeatures_cols _ _ _) hg
      · rw [cart_true_rows _ fns (selectUserFeatures_cols _ _ _) hg.1 hg.2
            (selectUserFeatures_wf _ _ _),
          List.length_map, lowerTriPairs_length, selectUserFeatures_len]

theorem pairItemTable_error {reg : RegTable} {fns : List String} {od : Bool}
    {users : List String} {p : Nat × Nat} {e : PairError}
    (h : pairItemTable reg fns od users p = .error e) : e = .emptyNumpyConcat := by
  unfold pairItemTable at h
  cases hg : get_pair_data od (selectUserFeatures reg (users.getD p.1 "") fns)
      (some (selectUserFeatures reg (users.getD p.2 "") fns)) with
  | some t => rw [hg] at h; cases h
  | none => rw [hg] at h; exact (Except.error.inj h).symm

theorem withinItemTable_error {reg : RegTable} {fns : List String} {od : Bool}
    {u : String} {e : PairError}
    (h : withinItemTable reg fns od u = .error e) : e = .emptyNumpyConcat := by
  unfold withinItemTable at h
  cases hg : get_pair_data od (selectUserFeatures reg u fns) none with
  | some t => rw [hg] at h; cases h
  | none => rw [hg] at h; exact (Except.error.inj h).symm

theorem upperTriPairs_nil {n : Nat} (h : n ≤ 1) : upperTriPairs n = [] := by
  unfold upperTriPairs
  have h0 : n - 1 = 0 := by omega
  rw [h0]
  rfl

theorem tryCollect_ok_mem {l : List (Except PairError DFrame)} {ts : List DFrame} :
    tryCollect l = .ok ts → ∀ t ∈ ts, Except.ok t ∈ l := by
  induction l generalizing ts with
  | nil =>
      intro h t ht
      have : ts = [] := (Except.ok.inj h).symm
      subst this
      cases ht
  | cons x l ih =>
      intro h t ht
      cases x with
      | error e => cases h
      | ok t0 =>
          have h2 : (tryCollect l).map (fun zs => t0 :: zs) = .ok ts := h
          cases htc : tryCollect l with
          | error e => rw [htc] at h2; cases h2
          | ok ts0 =>
              rw [htc] at h2
              have hts : ts = t0 :: ts0 := (Except.ok.inj h2).symm
              subst hts
              rcases List.mem_cons.mp ht with rfl | hmem
              · exact List.mem_cons_self _ _
              · exact List.mem_cons_of_mem _ (ih htc t hmem)

theorem pairItemTable_ok_cols {reg : RegTable} {fns : List String} {od : Bool}
    {users : List String} {p : Nat × Nat} {t : DFrame} (hg : goodCols fns)
    (h : pairItemTable reg fns od users p = .ok t) : t.cols = schemaCols fns od := by
  obtain ⟨t2, h2, hc, _⟩ := pairItemTable_ok reg fns od users p hg
  rw [h2] at h
  exact (Except.ok.inj h) ▸ hc

/-- A successful `extract_pairs` run: schema, row counts and labels of the
assembled dataset. -/
theorem extract_pairs_ok_counts (reg : RegTable) (fns : List String) (od : Bool)
    (hseq : ¬(od = true ∧ "sequence" ∈ fns)) (hg : goodCols fns)
    (hU : 2 ≤ (uniqueFirstSeen [] (reg.rows.map Prod.fst)).length)
    (hsz : od = true → ∀ u ∈ uniqueFirstSeen [] (reg.rows.map Prod.fst),
      2 ≤ userGroupSize reg u) :
    ∃ negRows posRows : List (List Int),
      extract_pairs reg fns od =
        .ok ⟨schemaCols fns od ++ ["label"], negRows ++ posRows⟩ ∧
      negRows.length = negPairCount reg (uniqueFirstSeen [] (reg.rows.map Prod.fst)) ∧
      posRows.length = posPairCount reg (uniqueFirstSeen [] (reg.rows.map Prod.fst)) ∧
      (∀ r ∈ negRows, r.getLast? = some 0) ∧
      (∀ r ∈ posRows, r.getLast? = some 1) := by
  have hneg : ∀ p ∈ upperTriPairs (uniqueFirstSeen [] (reg.rows.map Prod.fst)).length,
      pairItemTable reg fns od (uniqueFirstSeen [] (reg.rows.map Prod.fst)) p =
        .ok (okTable (pairItemTable reg fns od (uniqueFirstSeen [] (reg.rows.map Prod.fst)) p)) ∧
      (okTable (pairItemTable reg fns od (uniqueFirstSeen [] (reg.rows.map Prod.fst)) p)).cols =
        schemaCols fns od ∧
      (okTable (pairItemTable reg fns od (uniqueFirstSeen [] (reg.rows.map Prod.fst)) p)).rows.length =
        userGroupSize reg ((uniqueFirstSeen [] (reg.rows.map Prod.fst)).getD p.1 "") *
          userGroupSize reg ((uniqueFirstSeen [] (reg.rows.map Prod.fst)).getD p.2 "") := by
    intro p _
    obtain ⟨t, ht, hc, hl⟩ := pairItemTable_ok reg fns od
      (uniqueFirstSeen [] (reg.rows.map Prod.fst)) p hg
    rw [ht]
    exact ⟨rfl, hc, hl⟩
  have hposf : ∀ u ∈ uniqueFirstSeen [] (reg.rows.map Prod.fst),
      withinItemTable reg fns od u = .ok (okTable (withinItemTable reg fns od u)) ∧
      (okTable (withinItemTable reg fns od u)).cols = schemaCols fns od ∧
      (okTable (withinItemTable reg fns od u)).rows.length =
        userGroupSize reg u * (userGroupSize reg u - 1) / 2 := by
    intro u hu
    obtain ⟨t, ht, hc, hl⟩ := withinItemTable_ok reg fns od u hg
      (fun ho => hsz ho u hu)
    rw [ht]
    exact ⟨rfl, hc, hl⟩
  have htry : tryCollect ((upperTriPairs (uniqueFirstSeen [] (reg.rows.map Prod.fst)).length).map
      (pairItemTable reg fns od (uniqueFirstSeen [] (reg.rows.map Prod.fst)))) =
      .ok ((upperTriPairs (uniqueFirstSeen [] (reg.rows.map Prod.fst)).length).map
        (fun p => okTable (pairItemTable reg fns od (uniqueFirstSeen [] (reg.rows.map Prod.fst)) p))) :=
    tryCollect_map_ok _ _ _ (fun p hp => (hneg p hp).1)
  have htry2 : tryCollect ((uniqueFirstSeen [] (reg.rows.map Prod.fst)).map
      (withinItemTable reg fns od)) =
      .ok ((uniqueFirstSeen [] (reg.rows.map Prod.fst)).map
        (fun u => okTable (withinItemTable reg fns od u))) :=
    tryCollect_map_ok _ _ _ (fun u hu => (hposf u hu).1)
  have hmem01 : ((0 : Nat), (1 : Nat)) ∈
      upperTriPairs (uniqueFirstSeen [] (reg.rows.map Prod.fst)).length :=
    mem_upperTriPairs.mpr ⟨by omega, by omega⟩
  have hne : ((upperTriPairs (uniqueFirstSeen [] (reg.rows.map Prod.fst)).length).map
      (fun p => okTable (pairItemTable reg fns od (uniqueFirstSeen [] (reg.rows.map Prod.fst)) p))) ≠ [] := by
    intro hnil
    have := congrArg List.length hnil
    simp only [List.length_map, List.length_nil] at this
    exact absurd (this ▸ (List.length_pos.mpr (List.ne_nil_of_mem hmem01)))
      (by omega)
  have hne2 : ((uniqueFirstSeen [] (reg.rows.map Prod.fst)).map
      (fun u => okTable (withinItemTable reg fns od u))) ≠ [] := by
    intro hnil
    have := congrArg List.length hnil
    simp only [List.length_map, List.length_nil] at this
    omega
  have hconcatNeg := concatTables_of_ne_nil _ hne (schemaCols fns od)
    (fun t ht => by
      rcases List.mem_map.mp ht with ⟨p, hp, rfl⟩
      exact (hneg p hp).2.1)
  have hconcatPos := concatTables_of_ne_nil _ hne2 (schemaCols fns od)
    (fun t ht => by
      rcases List.mem_map.mp ht with ⟨u, hu, rfl⟩
      exact (hposf u hu).2.1)
  refine ⟨(((upperTriPairs (uniqueFirstSeen [] (reg.rows.map Prod.fst)).length).map
        (fun p => okTable (pairItemTable reg fns od (uniqueFirstSeen [] (reg.rows.map Prod.fst)) p))).flatMap
        DFrame.rows).map (fun r => r ++ [(0 : Int)]),
      (((uniqueFirstSeen [] (reg.rows.map Prod.fst)).map
        (fun u => okTable (withinItemTable reg fns od u))).flatMap
        DFrame.rows).map (fun r => r ++ [(1 : Int)]), ?_, ?_, ?_, ?_, ?_⟩
  · simp only [extract_pairs]
    rw [if_neg hseq, htry]
    simp only []
    rw [hconcatNeg]
    simp only []
    rw [htry2]
    simp only []
    rw [hconcatPos]
    simp only [addConstCol, concatTables, List.flatMap_cons, List.flatMap_nil,
      List.append_nil]
  · rw [List.length_map, List.length_flatMap, List.map_map]
    unfold negPairCount
    congr 1
    refine List.map_congr_left (fun p hp => ?_)
    exact (hneg p hp).2.2
  · rw [List.length_map, List.length_flatMap, List.map_map]
    unfold posPairCount
    congr 1
    refine List.map_congr_left (fun u hu => ?_)
    exact (hposf u hu).2.2
  · intro r hr
    rcases List.mem_map.mp hr with ⟨r0, _, rfl⟩
    exact List.getLast?_concat r0
  · intro r hr
    rcases List.mem_map.mp hr with ⟨r0, _, rfl⟩
    exact List.getLast?_concat r0

/-- With fewer than two distinct users the generator always raises. -/
theorem extract_pairs_error_of_lt2 (reg : RegTable) (fns : List String) (od : Bool)
    (hU : (uniqueFirstSeen [] (reg.rows.map Prod.fst)).length < 2) :
    ∃ e, extract_pairs reg fns od = .error e := by
  by_cases hc : (od = true ∧ "sequence" ∈ fns)
  · exact ⟨.config, by simp only [extract_pairs]; rw [if_pos hc]⟩
  · refine ⟨.emptyPandasConcat, ?_⟩
    simp only [extract_pairs]
    rw [if_neg hc, upperTriPairs_nil (by omega)]
    rfl

/-- The configuration `ValueError` fires exactly for the diff-mode/sequence
combination, for every registration table. -/
theorem extract_pairs_config_iff (reg : RegTable) (fns : List String) (od : Bool) :
    extract_pairs reg fns od = .error .config ↔ (od = true ∧ "sequence" ∈ fns) := by
  constructor
  · intro h
    by_cases hc : (od = true ∧ "sequence" ∈ fns)
    · exact hc
    exfalso
    simp only [extract_pairs] at h
    rw [if_neg hc] at h
    cases h1 : tryCollect ((upperTriPairs (uniqueFirstSeen [] (reg.rows.map Prod.fst)).length).map
        (pairItemTable reg fns od (uniqueFirstSeen [] (reg.rows.map Prod.fst)))) with
    | error e =>
        rw [h1] at h
        simp only [] at h
        have he : e = .config := Except.error.inj h
        rcases List.mem_map.mp (tryCollect_error_mem h1) with ⟨p, _, hpe⟩
        have := pairItemTable_error hpe
        rw [he] at this
        cases this
    | ok negTables =>
        rw [h1] at h
        simp only [] at h
        cases h2 : concatTables negTables with
        | error e2 =>
            rw [h2] at h
            simp only [] at h
            have he : e2 = .config := Except.error.inj h
            have := concatTables_error h2
            rw [he] at this
            cases this
        | ok negDF =>
            rw [h2] at h
            simp only [] at h
            cases h3 : tryCollect ((uniqueFirstSeen [] (reg.rows.map Prod.fst)).map
                (withinItemTable reg fns od)) with
            | error e3 =>
                rw [h3] at h
                simp only [] at h
                have he : e3 = .config := Except.error.inj h
                rcases List.mem_map.mp (tryCollect_error_mem h3) with ⟨u, _, hue⟩
                have := withinItemTable_error hue
                rw [he] at this
                cases this
            | ok posTables =>
                rw [h3] at h
                simp only [] at h
                cases h4 : concatTables posTables with
                | error e4 =>
                    rw [h4] at h
                    simp only [] at h
                    have he : e4 = .config := Except.error.inj h
                    have := concatTables_error h4
                    rw [he] at this
                    cases this
                | ok posDF =>
                    rw [h4] at h
                    simp only [] at h
                    cases h
  · rintro ⟨hod, hmem⟩
    subst hod
    simp [extract_pairs, hmem]

/-- Any successful run's output schema: the mode's feature schema plus the
trailing label column. -/
theorem extract_pairs_ok_cols {reg : RegTable} {fns : List String} {od : Bool}
    {out : DFrame} (hg : goodCols fns)
    (h : extract_pairs reg fns od = .ok out) :
    out.cols = schemaCols fns od ++ ["label"] := by
  simp only [extract_pairs] at h
  by_cases hc : (od = true ∧ "sequence" ∈ fns)
  · rw [if_pos hc] at h; cases h
  rw [if_neg hc] at h
  cases h1 : tryCollect ((upperTriPairs (uniqueFirstSeen [] (reg.rows.map Prod.fst)).length).map
      (pairItemTable reg fns od (uniqueFirstSeen [] (reg.rows.map Prod.fst)))) with
  | error e => rw [h1] at h; cases h
  | ok negTables =>
      rw [h1] at h
      simp only [] at h
      cases h2 : concatTables negTables with
      | error e => rw [h2] at h; cases h
      | ok negDF =>
          rw [h2] at h
          simp only [] at h
          have hnegcols : negDF.cols = schemaCols fns od := by
            cases negTables with
            | nil => cases h2
            | cons t ts =>
                have hshape : concatTables (t :: ts) =
                    .ok ⟨t.cols, (t :: ts).flatMap DFrame.rows⟩ := rfl
                rw [hshape] at h2
                have hdf := Except.ok.inj h2
                have hokt : Except.ok t ∈ ((upperTriPairs
                    (uniqueFirstSeen [] (reg.rows.map Prod.fst)).length).map
                    (pairItemTable reg fns od (uniqueFirstSeen [] (reg.rows.map Prod.fst)))) :=
                  tryCollect_ok_mem h1 t (by simp)
                rcases List.mem_map.mp hokt with ⟨p, _, hpt⟩
                have hcolst := pairItemTable_ok_cols hg hpt
                rw [← hdf]
                exact hcolst
          cases h3 : tryCollect ((uniqueFirstSeen [] (reg.rows.map Prod.fst)).map
              (withinItemTable reg fns od)) with
          | error e => rw [h3] at h; cases h
          | ok posTables =>
              rw [h3] at h
              simp only [] at h
              cases h4 : concatTables posTables with
              | error e => rw [h4] at h; cases h
              | ok posDF =>
                  rw [h4] at h
                  simp only [] at h
                  have hfin : concatTables [addConstCol negDF "label" 0,
                      addConstCol posDF "label" 1] =
                      .ok ⟨(addConstCol negDF "label" 0).cols, _⟩ := rfl
                  rw [hfin] at h
                  have := Except.ok.inj h
                  rw [← this, addConstCol_cols, hnegcols]

theorem suffA_ne_tmprow (f : String) : f ++ "_A" ≠ "_tmp_row_number" := by
  have h : "_tmp_row_number" = "_tmp_row_numb" ++ "er" := by decide
  rw [h]
  exact append_ne_of_suffix_ne _ _ _ _ (by decide) (by decide)

theorem suffB_ne_tmprow (f : String) : f ++ "_B" ≠ "_tmp_row_number" := by
  have h : "_tmp_row_number" = "_tmp_row_numb" ++ "er" := by decide
  rw [h]
  exact append_ne_of_suffix_ne _ _ _ _ (by decide) (by decide)

theorem tmprow_not_mem_suffA (fns : List String) :
    "_tmp_row_number" ∉ fns.map (· ++ "_A") := by
  intro h
  rcases List.mem_map.mp h with ⟨f, _, hf⟩
  exact suffA_ne_tmprow f hf

theorem tmprow_not_mem_suffB (fns : List String) :
    "_tmp_row_number" ∉ fns.map (· ++ "_B") := by
  intro h
  rcases List.mem_map.mp h with ⟨f, _, hf⟩
  exact suffB_ne_tmprow f hf

/-- No synthetic engine column survives into the labelled output schema. -/
theorem tmpFree_schema (fns : List String) (od : Bool) (hg : goodCols fns)
    (htrA : "_tmp_row_number_A" ∉ fns) (htrB : "_tmp_row_number_B" ∉ fns) :
    tmpFree (schemaCols fns od ++ ["label"]) := by
  obtain ⟨htc, htr⟩ := hg
  have hlabel : ∀ c : String, c ∈ ["_tmp_cart_prod", "_tmp_row_number",
      "_tmp_row_number_A", "_tmp_row_number_B"] → c ∉ (["label"] : List String) := by decide
  cases od with
  | true =>
      refine ⟨?_, ?_, ?_, ?_⟩ <;> intro hmem <;> rcases List.mem_append.mp hmem with hm | hm
      · exact htc hm
      · exact hlabel _ (by decide) hm
      · exact htr hm
      · exact hlabel _ (by decide) hm
      · exact htrA hm
      · exact hlabel _ (by decide) hm
      · exact htrB hm
      · exact hlabel _ (by decide) hm
  | false =>
      refine ⟨?_, ?_, ?_, ?_⟩ <;> intro hmem <;> rcases List.mem_append.mp hmem with hm | hm
      · rcases List.mem_append.mp hm with hm2 | hm2
        · exact tmpcart_not_mem_suffA fns hm2
        · exact tmpcart_not_mem_suffB fns hm2
      · exact hlabel _ (by decide) hm
      · rcases List.mem_append.mp hm with hm2 | hm2
        · exact tmprow_not_mem_suffA fns hm2
        · exact tmprow_not_mem_suffB fns hm2
      · exact hlabel _ (by decide) hm
      · rcases List.mem_append.mp hm with hm2 | hm2
        · exact trA_not_mem_suffA htr hm2
        · exact trA_not_mem_suffB fns hm2
      · exact hlabel _ (by decide) hm
      · rcases List.mem_append.mp hm with hm2 | hm2
        · exact trB_not_mem_suffA fns hm2
        · exact trB_not_mem_suffB htr hm2
      · exact hlabel _ (by decide) hm

theorem tmpFree_cart_out (fns : List String) (hg : goodCols fns)
    (A B : DFrame) (w : Bool) (hA : A.cols = fns) (hB : B.cols = fns) :
    tmpFree (((cartesian_product A B w).2.2).cols) := by
  obtain ⟨htc, htr⟩ := hg
  rw [cart_cols A B fns w hA hB ⟨htc, htr⟩]
  refine ⟨?_, ?_, ?_, ?_⟩ <;> intro hmem <;> rcases List.mem_append.mp hmem with hm | hm
  · exact tmpcart_not_mem_suffA fns hm
  · exact tmpcart_not_mem_suffB fns hm
  · exact tmprow_not_mem_suffA fns hm
  · exact tmprow_not_mem_suffB fns hm
  · exact trA_not_mem_suffA htr hm
  · exact trA_not_mem_suffB fns hm
  · exact trB_not_mem_suffA fns hm
  · exact trB_not_mem_suffB htr hm

theorem absdiff_some_cols {A B : DFrame} {w : Bool} {out : DFrame}
    (h : abs_diff_between_all_row_pairs A B w = some out) : out.cols = A.cols := by
  cases w with
  | false =>
      rw [absdiff_false_eq] at h
      rw [← Option.some.inj h]
  | true =>
      by_cases h1 : A.rows.length ≤ 1
      · rw [absdiff_true_none _ _ h1] at h; cases h
      · rw [absdiff_true_eq _ _ (by omega)] at h
        rw [← Option.some.inj h]

/-! ## The claims -/

/-- Claim C1, counterexample: on a within-subject work item over a group of
`n = 1` row, diff mode raises (`np.concatenate` of an empty list) instead of
returning the empty `n*(n-1)/2 = 0`-row table the claim asserts; no output
exists. -/
theorem claim1_counterexample :
    get_pair_data true ⟨["f"], [[5]]⟩ none = none ∧
    ¬∃ r, get_pair_data true ⟨["f"], [[5]]⟩ none = some r := by
  refine ⟨rfl, ?_⟩
  rintro ⟨r, hr⟩
  rw [(rfl : get_pair_data true (⟨["f"], [[5]]⟩ : DFrame) none = none)] at hr
  cases hr

/-- Claim C1, amended: for a within-subject work item over a group of `n`
rows, concat mode for every `n`, and diff mode whenever `n ≥ 2` (diff mode
raises for `n ≤ 1`), produce exactly the rows generated by a duplicate-free
index-pair list: no self-pair `(i,i)`, each unordered pair `{i,j}` with
`i ≠ j` contributing exactly one row, and `n*(n-1)/2` rows in total. -/
theorem claim1_within_dedup (A : DFrame) (fns : List String)
    (hA : A.cols = fns) (hg : goodCols fns) (hwf : wfRows A fns.length) :
    (2 ≤ A.rows.length →
      ∃ out, abs_diff_between_all_row_pairs A A true = some out ∧
        out.rows = (upperTriPairs A.rows.length).map (fun p =>
          absDiffVec (A.rows.getD p.2 []) (A.rows.getD p.1 [])) ∧
        pairProps (upperTriPairs A.rows.length) A.rows.length) ∧
    (((cartesian_product A A true).2.2).rows =
        (lowerTriPairs A.rows.length).map (fun p =>
          A.rows.getD p.1 [] ++ A.rows.getD p.2 []) ∧
      pairProps (lowerTriPairs A.rows.length) A.rows.length) := by
  constructor
  · intro h2
    exact ⟨_, absdiff_true_eq A A h2, rfl, pairProps_upperTriPairs _⟩
  · exact ⟨cart_true_rows A fns hA hg.1 hg.2 hwf, pairProps_lowerTriPairs _⟩

/-- Claim C1, witness: the amended dedup statement applied to a concrete
3-row group. -/
theorem claim1_within_dedup_witness :
    (2 ≤ (DFrame.mk ["f"] [[1], [2], [3]]).rows.length →
      ∃ out, abs_diff_between_all_row_pairs (DFrame.mk ["f"] [[1], [2], [3]])
          (DFrame.mk ["f"] [[1], [2], [3]]) true = some out ∧
        out.rows = (upperTriPairs 3).map (fun p =>
          absDiffVec ((DFrame.mk ["f"] [[1], [2], [3]]).rows.getD p.2 [])
            ((DFrame.mk ["f"] [[1], [2], [3]]).rows.getD p.1 [])) ∧
        pairProps (upperTriPairs 3) 3) ∧
    (((cartesian_product (DFrame.mk ["f"] [[1], [2], [3]])
        (DFrame.mk ["f"] [[1], [2], [3]]) true).2.2).rows =
        (lowerTriPairs 3).map (fun p =>
          (DFrame.mk ["f"] [[1], [2], [3]]).rows.getD p.1 [] ++
            (DFrame.mk ["f"] [[1], [2], [3]]).rows.getD p.2 []) ∧
      pairProps (lowerTriPairs 3) 3) :=
  claim1_within_dedup (DFrame.mk ["f"] [[1], [2], [3]]) ["f"] rfl (by decide) (by decide)

/-- Claim C2, counterexample: on the claim's own scenario — subjects with 2,
1 and 2 rows in diff mode — the generator raises (`np.concatenate([])` on the
1-row subject's within-pass) instead of returning the asserted 10-row
dataset. -/
theorem claim2_counterexample :
    extract_pairs ⟨["f"], [("a", [1]), ("a", [2]), ("b", [3]), ("c", [4]), ("c", [5])]⟩
      ["f"] true = .error .emptyNumpyConcat ∧
    ¬∃ out, extract_pairs ⟨["f"], [("a", [1]), ("a", [2]), ("b", [3]), ("c", [4]), ("c", [5])]⟩
      ["f"] true = .ok out := by
  have h : extract_pairs ⟨["f"], [("a", [1]), ("a", [2]), ("b", [3]), ("c", [4]), ("c", [5])]⟩
      ["f"] true = .error .emptyNumpyConcat := by decide
  refine ⟨h, ?_⟩
  rintro ⟨out, hout⟩
  rw [h] at hout
  cases hout

/-- Claim C2, amended: whenever the run completes — which requires at least
two distinct subjects and, in diff mode, at least two rows per subject (the
claim's 2/1/2 diff scenario instead raises) — the assembled dataset has
exactly `Σ_{i<j} n_i*n_j` rows labelled 0 followed by `Σ_i n_i*(n_i-1)/2`
rows labelled 1. -/
theorem claim2_label_counts (reg : RegTable) (fns : List String) (od : Bool)
    (hseq : ¬(od = true ∧ "sequence" ∈ fns)) (hg : goodCols fns)
    (hU : 2 ≤ (uniqueFirstSeen [] (reg.rows.map Prod.fst)).length)
    (hsz : od = true → ∀ u ∈ uniqueFirstSeen [] (reg.rows.map Prod.fst),
      2 ≤ userGroupSize reg u) :
    ∃ negRows posRows : List (List Int),
      extract_pairs reg fns od =
        .ok ⟨schemaCols fns od ++ ["label"], negRows ++ posRows⟩ ∧
      negRows.length = negPairCount reg (uniqueFirstSeen [] (reg.rows.map Prod.fst)) ∧
      posRows.length = posPairCount reg (uniqueFirstSeen [] (reg.rows.map Prod.fst)) ∧
      (∀ r ∈ negRows, r.getLast? = some 0) ∧
      (∀ r ∈ posRows, r.getLast? = some 1) :=
  extract_pairs_ok_counts reg fns od hseq hg hU hsz

/-- Claim C2, witness: the amended count statement applied to a concrete
table with subjects of sizes 2, 2 and 2 in diff mode. -/
theorem claim2_label_counts_witness :
    ∃ negRows posRows : List (List Int),
      extract_pairs ⟨["f"], [("a", [1]), ("a", [2]), ("b", [10]), ("b", [20]),
          ("c", [30]), ("c", [40])]⟩ ["f"] true =
        .ok ⟨schemaCols ["f"] true ++ ["label"], negRows ++ posRows⟩ ∧
      negRows.length = negPairCount
        ⟨["f"], [("a", [1]), ("a", [2]), ("b", [10]), ("b", [20]),
          ("c", [30]), ("c", [40])]⟩
        (uniqueFirstSeen [] ((RegTable.mk ["f"] [("a", [1]), ("a", [2]), ("b", [10]),
          ("b", [20]), ("c", [30]), ("c", [40])]).rows.map Prod.fst)) ∧
      posRows.length = posPairCount
        ⟨["f"], [("a", [1]), ("a", [2]), ("b", [10]), ("b", [20]),
          ("c", [30]), ("c", [40])]⟩
        (uniqueFirstSeen [] ((RegTable.mk ["f"] [("a", [1]), ("a", [2]), ("b", [10]),
          ("b", [20]), ("c", [30]), ("c", [40])]).rows.map Prod.fst)) ∧
      (∀ r ∈ negRows, r.getLast? = some 0) ∧
      (∀ r ∈ posRows, r.getLast? = some 1) :=
  claim2_label_counts
    ⟨["f"], [("a", [1]), ("a", [2]), ("b", [10]), ("b", [20]), ("c", [30]), ("c", [40])]⟩
    ["f"] true (by decide) (by decide) (by decide) (by decide)

/-- Claim C3, counterexample: on a within work item over a single row, diff
mode produces no row set at all (it raises) while concat mode returns the
empty table, so the asserted 1:1 correspondence between the two modes'
produced row sets fails there. -/
theorem claim3_counterexample :
    abs_diff_between_all_row_pairs ⟨["g"], [[7]]⟩ ⟨["g"], [[7]]⟩ true = none ∧
    (cartesian_product ⟨["g"], [[7]]⟩ ⟨["g"], [[7]]⟩ true).2.2 =
      ⟨["g_A", "g_B"], []⟩ := by
  constructor
  · rfl
  · decide

/-- Claim C3, amended: whenever diff mode produces output — always for
cross-group items, and for within items with at least two rows (a within
group of one row raises in diff mode while concat mode returns an empty
table) — its row list is a permutation of the concat-mode rows with the `_A`
block and `_B` block replaced by their elementwise absolute difference. -/
theorem claim3_mode_correspondence (A B : DFrame) (fns : List String) (w : Bool)
    (hA : A.cols = fns) (hB : B.cols = fns) (hg : goodCols fns)
    (hwA : wfRows A fns.length) (hwB : wfRows B fns.length)
    (hw : w = true → B = A ∧ 2 ≤ A.rows.length) :
    ∃ dOut, abs_diff_between_all_row_pairs A B w = some dOut ∧
      dOut.rows.Perm ((((cartesian_product A B w).2.2).rows).map
        (blockAbsDiff fns.length)) := by
  have hlenA : ∀ i, i < A.rows.length → (A.rows.getD i []).length = fns.length := by
    intro i hi
    refine hwA _ ?_
    rw [List.getD_eq_getElem _ _ hi]
    exact List.getElem_mem hi
  cases w with
  | false =>
      refine ⟨_, absdiff_false_eq A B, ?_⟩
      rw [cart_false_rows A B fns hA hB hg.1 hwA hwB, List.map_map]
      have hblocks : (crossPairs A.rows.length B.rows.length).map
          (blockAbsDiff fns.length ∘ fun p => A.rows.getD p.1 [] ++ B.rows.getD p.2 []) =
          (crossPairs A.rows.length B.rows.length).map
            (fun p => absDiffVec (A.rows.getD p.1 []) (B.rows.getD p.2 [])) := by
        refine List.map_congr_left (fun p hp => ?_)
        obtain ⟨hp1, hp2⟩ := mem_crossPairs.mp hp
        simp only [Function.comp, blockAbsDiff]
        rw [show fns.length = (A.rows.getD p.1 []).length from (hlenA p.1 hp1).symm,
          List.take_left, List.drop_left]
      rw [hblocks]
      have hperm := (crossPairs_perm_swap A.rows.length B.rows.length).map
        (fun p : Nat × Nat => absDiffVec (A.rows.getD p.2 []) (B.rows.getD p.1 []))
      rw [List.map_map] at hperm
      exact hperm
  | true =>
      obtain ⟨hBA, h2⟩ := hw rfl
      rw [hBA]
      refine ⟨_, absdiff_true_eq A A h2, ?_⟩
      rw [cart_true_rows A fns hA hg.1 hg.2 hwA, List.map_map]
      have hblocks : (lowerTriPairs A.rows.length).map
          (blockAbsDiff fns.length ∘ fun p => A.rows.getD p.1 [] ++ A.rows.getD p.2 []) =
          (lowerTriPairs A.rows.length).map
            (fun p => absDiffVec (A.rows.getD p.1 []) (A.rows.getD p.2 [])) := by
        refine List.map_congr_left (fun p hp => ?_)
        obtain ⟨hp1, hp2⟩ := mem_lowerTriPairs.mp hp
        simp only [Function.comp, blockAbsDiff]
        rw [show fns.length = (A.rows.getD p.1 []).length from
            (hlenA p.1 (by omega)).symm,
          List.take_left, List.drop_left]
      rw [hblocks]
      have hperm := (upperTri_perm_swap_lowerTri A.rows.length).map
        (fun p : Nat × Nat => absDiffVec (A.rows.getD p.2 []) (A.rows.getD p.1 []))
      rw [List.map_map] at hperm
      exact hperm

/-- Claim C3, witness: the mode correspondence applied to a concrete
cross-group work item. -/
theorem claim3_mode_correspondence_witness :
    ∃ dOut, abs_diff_between_all_row_pairs (DFrame.mk ["f"] [[1], [2]])
        (DFrame.mk ["f"] [[10]]) false = some dOut ∧
      dOut.rows.Perm ((((cartesian_product (DFrame.mk ["f"] [[1], [2]])
        (DFrame.mk ["f"] [[10]]) false).2.2).rows).map (blockAbsDiff 1)) :=
  claim3_mode_correspondence (DFrame.mk ["f"] [[1], [2]]) (DFrame.mk ["f"] [[10]])
    ["f"] false rfl rfl (by decide) (by decide) (by decide) (by decide)

/-- Claim C4, counterexample: on a within group of two rows, the cross join
retains the row with `index_A = 1 > index_B = 0` (features `[20, 10]`), not
the claim's strict `index_A < index_B` subset (which would be `[[10, 20]]`). -/
theorem claim4_counterexample :
    ((cartesian_product ⟨["f"], [[10], [20]]⟩ ⟨["f"], [[10], [20]]⟩ true).2.2).rows =
      [[20, 10]] ∧
    ((cartesian_product ⟨["f"], [[10], [20]]⟩ ⟨["f"], [[10], [20]]⟩ true).2.2).rows ≠
      [[10, 20]] := by decide

/-- Claim C4, amended: in concat mode with `withinGroup` true the engine uses
the synthetic row index to retain exactly the strict `index_A > index_B`
subset of the cross join (the opposite orientation from the claim) and drops
all other rows. -/
theorem claim4_retained_subset (A : DFrame) (fns : List String)
    (hA : A.cols = fns) (hg : goodCols fns) (hwf : wfRows A fns.length) :
    ((cartesian_product A A true).2.2).rows =
      ((crossPairs A.rows.length A.rows.length).filter
        (fun p => decide (p.2 < p.1))).map
        (fun p => A.rows.getD p.1 [] ++ A.rows.getD p.2 []) ∧
    ∀ p ∈ lowerTriPairs A.rows.length, p.2 < p.1 := by
  refine ⟨cart_true_rows A fns hA hg.1 hg.2 hwf, fun p hp => (mem_lowerTriPairs.mp hp).1⟩

/-- Claim C4, witness: the retained-subset characterization applied to a
concrete 3-row group. -/
theorem claim4_retained_subset_witness :
    ((cartesian_product (DFrame.mk ["f"] [[1], [2], [3]])
        (DFrame.mk ["f"] [[1], [2], [3]]) true).2.2).rows =
      ((crossPairs 3 3).filter (fun p => decide (p.2 < p.1))).map
        (fun p => (DFrame.mk ["f"] [[1], [2], [3]]).rows.getD p.1 [] ++
          (DFrame.mk ["f"] [[1], [2], [3]]).rows.getD p.2 []) ∧
    ∀ p ∈ lowerTriPairs 3, p.2 < p.1 :=
  claim4_retained_subset (DFrame.mk ["f"] [[1], [2], [3]]) ["f"] rfl
    (by decide) (by decide)

/-- Claim C5, counterexample: on a table with a single subject the generator
raises (`pd.concat` of an empty list of negative frames) instead of
returning a dataset with an empty negative part. -/
theorem claim5_counterexample :
    extract_pairs ⟨["f"], [("a", [1]), ("a", [2])]⟩ ["f"] false =
      .error .emptyPandasConcat ∧
    ¬∃ out, extract_pairs ⟨["f"], [("a", [1]), ("a", [2])]⟩ ["f"] false = .ok out := by
  have h : extract_pairs ⟨["f"], [("a", [1]), ("a", [2])]⟩ ["f"] false =
      .error .emptyPandasConcat := by decide
  refine ⟨h, ?_⟩
  rintro ⟨out, hout⟩
  rw [h] at hout
  cases hout

/-- Claim C5, amended: for every input table with fewer than two distinct
subjects the generator raises an error and returns no dataset (contrary to
the claim, the degenerate case is not handled). -/
theorem claim5_lt2_raises (reg : RegTable) (fns : List String) (od : Bool)
    (hU : (uniqueFirstSeen [] (reg.rows.map Prod.fst)).length < 2) :
    ∃ e, extract_pairs reg fns od = .error e :=
  extract_pairs_error_of_lt2 reg fns od hU

/-- Claim C5, witness: the amended statement applied to a concrete one-user
table. -/
theorem claim5_lt2_raises_witness :
    ∃ e, extract_pairs (RegTable.mk ["f"] [("a", [1])]) ["f"] true = .error e :=
  claim5_lt2_raises (RegTable.mk ["f"] [("a", [1])]) ["f"] true (by decide)

/-- Claim C6: for every registration table, the generator raises the
configuration error exactly when `only_feature_diffs` is set and the literal
name `sequence` is among `feature_names`; the check precedes all pair
computation (the result is the same error for every table) and no output is
produced then, and no other flag/feature combination raises it. -/
theorem claim6_config_error (reg : RegTable) (fns : List String) (od : Bool) :
    (extract_pairs reg fns od = .error .config ↔ (od = true ∧ "sequence" ∈ fns)) ∧
    ((od = true ∧ "sequence" ∈ fns) → ∀ out, extract_pairs reg fns od ≠ .ok out) := by
  refine ⟨extract_pairs_config_iff reg fns od, fun hc out hout => ?_⟩
  rw [(extract_pairs_config_iff reg fns od).mpr hc] at hout
  cases hout

/-- Claim C7: every Pair Representation Table produced in one pass has the
mode's fixed column schema — the feature columns themselves in diff mode,
the `_A`/`_B` suffix duplication in concat mode — independent of the
row-group sizes, so all partial tables concatenate without column mismatch. -/
theorem claim7_schema (A B : DFrame) (fns : List String) (w : Bool)
    (hA : A.cols = fns) (hB : B.cols = fns) (hg : goodCols fns) :
    (∀ out, abs_diff_between_all_row_pairs A B w = some out → out.cols = fns) ∧
    ((cartesian_product A B w).2.2).cols =
      fns.map (· ++ "_A") ++ fns.map (· ++ "_B") := by
  refine ⟨fun out hout => ?_, cart_cols A B fns w hA hB hg⟩
  rw [absdiff_some_cols hout, hA]

/-- Claim C7, witness: the schema statement applied to concrete groups of
different sizes. -/
theorem claim7_schema_witness :
    (∀ out, abs_diff_between_all_row_pairs (DFrame.mk ["f", "g"] [[1, 2]])
        (DFrame.mk ["f", "g"] [[3, 4], [5, 6]]) false = some out →
      out.cols = ["f", "g"]) ∧
    ((cartesian_product (DFrame.mk ["f", "g"] [[1, 2]])
        (DFrame.mk ["f", "g"] [[3, 4], [5, 6]]) false).2.2).cols =
      (["f", "g"]).map (· ++ "_A") ++ (["f", "g"]).map (· ++ "_B") :=
  claim7_schema (DFrame.mk ["f", "g"] [[1, 2]])
    (DFrame.mk ["f", "g"] [[3, 4], [5, 6]]) ["f", "g"] false rfl rfl (by decide)

/-- Claim C8, counterexample: the concat-mode engine does not leave its input
frames unchanged — after the call the first input frame has gained the
synthetic `_tmp_cart_prod` column. -/
theorem claim8_counterexample :
    (cartesian_product ⟨["f"], [[1]]⟩ ⟨["f"], [[2]]⟩ false).1 ≠
      (⟨["f"], [[1]]⟩ : DFrame) ∧
    "_tmp_cart_prod" ∈ ((cartesian_product ⟨["f"], [[1]]⟩ ⟨["f"], [[2]]⟩ false).1).cols := by
  decide

/-- Claim C8, amended: the generator's own input is only read and no
synthetic column reaches any output — the diff-mode engine returns its
inputs unchanged, the concat-mode output table and the generator's final
dataset are free of all synthetic columns — but the concat-mode engine does
mutate its input frames: they keep the appended `_tmp_cart_prod` column
after the call. -/
theorem claim8_frame_effects (fns : List String) (hg : goodCols fns)
    (htrA : "_tmp_row_number_A" ∉ fns) (htrB : "_tmp_row_number_B" ∉ fns) :
    (∀ (A : DFrame) (Bopt : Option DFrame) r, get_pair_data true A Bopt = some r →
      r.1 = A ∧ r.2.1 = Bopt.getD A) ∧
    (∀ (A B : DFrame) (w : Bool), A.cols = fns →
      "_tmp_cart_prod" ∈ ((cartesian_product A B w).1).cols ∧
        (cartesian_product A B w).1 ≠ A) ∧
    (∀ (A B : DFrame) (w : Bool), A.cols = fns → B.cols = fns →
      tmpFree (((cartesian_product A B w).2.2).cols)) ∧
    (∀ (reg : RegTable) (od : Bool) (out : DFrame),
      extract_pairs reg fns od = .ok out → tmpFree out.cols) := by
  refine ⟨?_, ?_, ?_, ?_⟩
  · intro A Bopt r hr
    cases Bopt with
    | none =>
        have hr2 : (abs_diff_between_all_row_pairs A A true).map
            (fun out => (A, A, out)) = some r := hr
        cases hd : abs_diff_between_all_row_pairs A A true with
        | none => rw [hd] at hr2; cases hr2
        | some out =>
            rw [hd] at hr2
            have := Option.some.inj hr2
            rw [← this]
            exact ⟨rfl, rfl⟩
    | some B =>
        have hr2 : (abs_diff_between_all_row_pairs A B false).map
            (fun out => (A, B, out)) = some r := hr
        cases hd : abs_diff_between_all_row_pairs A B false with
        | none => rw [hd] at hr2; cases hr2
        | some out =>
            rw [hd] at hr2
            have := Option.some.inj hr2
            rw [← this]
            exact ⟨rfl, rfl⟩
  · intro A B w hA
    cases w with
    | false =>
        constructor
        · show "_tmp_cart_prod" ∈ (addConstCol A "_tmp_cart_prod" 0).cols
          rw [addConstCol_cols]
          exact List.mem_append_right _ (by simp)
        · intro he
          have he2 : addConstCol A "_tmp_cart_prod" 0 = A := he
          have hc := congrArg DFrame.cols he2
          rw [addConstCol_cols] at hc
          have hl := congrArg List.length hc
          simp at hl
    | true =>
        constructor
        · show "_tmp_cart_prod" ∈
            (addIndexCol (addConstCol A "_tmp_cart_prod" 0) "_tmp_row_number").cols
          rw [addIndexCol_cols, addConstCol_cols]
          exact List.mem_append_left _ (List.mem_append_right _ (by simp))
        · intro he
          have he2 : addIndexCol (addConstCol A "_tmp_cart_prod" 0) "_tmp_row_number" = A := he
          have hc := congrArg DFrame.cols he2
          rw [addIndexCol_cols, addConstCol_cols] at hc
          have hl := congrArg List.length hc
          simp at hl
  · intro A B w hA hB
    exact tmpFree_cart_out fns hg A B w hA hB
  · intro reg od out hout
    rw [extract_pairs_ok_cols hg hout]
    exact tmpFree_schema fns od hg htrA htrB

/-- Claim C8, witness: the frame-effect statement applied to the concrete
feature set `["f"]`. -/
theorem claim8_frame_effects_witness :
    (∀ (A : DFrame) (Bopt : Option DFrame) r, get_pair_data true A Bopt = some r →
      r.1 = A ∧ r.2.1 = Bopt.getD A) ∧
    (∀ (A B : DFrame) (w : Bool), A.cols = ["f"] →
      "_tmp_cart_prod" ∈ ((cartesian_product A B w).1).cols ∧
        (cartesian_product A B w).1 ≠ A) ∧
    (∀ (A B : DFrame) (w : Bool), A.cols = ["f"] → B.cols = ["f"] →
      tmpFree (((cartesian_product A B w).2.2).cols)) ∧
    (∀ (reg : RegTable) (od : Bool) (out : DFrame),
      extract_pairs reg ["f"] od = .ok out → tmpFree out.cols) :=
  claim8_frame_effects ["f"] (by decide) (by decide) (by decide)

/-- Claim C9: the generator is deterministic — it is a pure function of the
registration table, the feature names and the flag, so two runs on equal
inputs return equal outputs, row for row. -/
theorem claim9_deterministic (reg₁ reg₂ : RegTable) (fns₁ fns₂ : List String)
    (od₁ od₂ : Bool) (h1 : reg₁ = reg₂) (h2 : fns₁ = fns₂) (h3 : od₁ = od₂) :
    extract_pairs reg₁ fns₁ od₁ = extract_pairs reg₂ fns₂ od₂ := by
  subst h1; subst h2; subst h3; rfl

/-- Claim C9, witness: two runs on an equal concrete input coincide. -/
theorem claim9_deterministic_witness :
    extract_pairs (RegTable.mk ["f"] [("a", [1]), ("b", [2])]) ["f"] true =
      extract_pairs (RegTable.mk ["f"] [("a", [1]), ("b", [2])]) ["f"] true :=
  claim9_deterministic (RegTable.mk ["f"] [("a", [1]), ("b", [2])])
    (RegTable.mk ["f"] [("a", [1]), ("b", [2])]) ["f"] ["f"] true true rfl rfl rfl

/-- Claim C10: the configuration check is purely name-based — in diff mode
the generator rejects exactly when the literal column name `sequence` is a
member of `feature_names`, for every registration table alike (so column
contents are never inspected, and a sequence-valued column under any other
name passes the check). -/
theorem claim10_name_based (reg reg2 : RegTable) (fns : List String) :
    (extract_pairs reg fns true = .error .config ↔ "sequence" ∈ fns) ∧
    (extract_pairs reg fns true = .error .config ↔
      extract_pairs reg2 fns true = .error .config) := by
  constructor
  · rw [extract_pairs_config_iff]
    simp
  · rw [extract_pairs_config_iff, extract_pairs_config_iff]

end PairData
